import Mathlib

/-!
# Verification of the lidarSuit wind-property retrieval core

Shallow embedding, in Lean 4, of the retrieval algorithms of
`windPropRetrieval.py` (FFT-based continuous-scan retrieval and the
five-beam DBS retrieval) and `wind_prop_retrieval_6_beam.py` (the
six-beam Reynolds-stress retrieval), together with proofs and
refutations of the specified properties.

Machine floating-point numbers are modelled by exact real numbers `ℝ`;
coordinate labels (time stamps, azimuth/elevation values used only in
equality tests) are modelled by rationals `ℚ` where the code compares
them for equality, so that the comparisons stay decidable.  Missing
values (NaN) are modelled by `Option ℝ` with `none` for NaN.
-/

open scoped Real
open scoped Classical

noncomputable section

/-! ## Angle conversion helpers (`np.deg2rad`, `np.rad2deg`) -/

/-- `np.deg2rad`: degrees to radians. -/
def deg2rad (x : ℝ) : ℝ := x * Real.pi / 180

/-- `np.rad2deg`: radians to degrees. -/
def rad2deg (x : ℝ) : ℝ := x * 180 / Real.pi

namespace fftWindPropRet

/-! ## `fftWindPropRet` (windPropRetrieval.py, lines 15-128)

The azimuthal FFT retrieval.  The Doppler observation is modelled per
(time, range) cell as its azimuthal profile: `N` radial-velocity samples
`x 0, …, x (N-1)` taken at the scan's `N` equally spaced azimuths
`360*n/N` degrees.  `xrft.fft(..., dim=['azm'])` is modelled as the
plain unnormalized discrete Fourier transform (`np.fft` sign convention
`e^{-2πikn/N}`) with the frequency bins in ascending order
(`np.fft.fftshift`): position `p` of the transform holds the harmonic
(cycles per scan) `p - ⌊N/2⌋`. -/

/-- The harmonic number (cycles per full scan) selected by
`.isel(freq_azm=-2)`: python index `-2` is position `N - 2`, which in the
fftshifted ascending-frequency ordering holds harmonic `(N - 2) - ⌊N/2⌋`. -/
def selectedHarmonic (N : ℕ) : ℤ := ((N : ℤ) - 2) - (N : ℤ) / 2

/-- Unnormalized DFT of the azimuthal profile `x` (`N` samples) at integer
harmonic `k`. -/
def dft (N : ℕ) (x : ℕ → ℝ) (k : ℤ) : ℂ :=
  ∑ n ∈ Finset.range N,
    (x n : ℂ) * Complex.exp (-(2 * (Real.pi : ℂ) * Complex.I * k * n) / N)

/-- `fftWindPropRet.getCompAmp`: the complex amplitude
`xrft.fft(self.dopplerObs, dim=['azm']).isel(freq_azm=-2)`. -/
def getCompAmp (N : ℕ) (x : ℕ → ℝ) : ℂ := dft N x (selectedHarmonic N)

/-- `fftWindPropRet.getPhase`:
`-np.rad2deg(np.arctan2(compAmp.imag, compAmp.real))`; `arctan2(y, x)` is
`Complex.arg (x + y*I)` (both give values in `(-π, π]`, and both send `0` to `0`). -/
def getPhase (N : ℕ) (x : ℕ → ℝ) : ℝ := -rad2deg (getCompAmp N x).arg

/-- `fftWindPropRet.getWindDir`: `phase + 180`. -/
def getWindDir (N : ℕ) (x : ℕ → ℝ) : ℝ := getPhase N x + 180

/-- `fftWindPropRet.getRadWindSpeed`: `2 * np.abs(compAmp) / N`. -/
def getRadWindSpeed (N : ℕ) (x : ℕ → ℝ) : ℝ :=
  2 * Complex.abs (getCompAmp N x) / N

/-- `fftWindPropRet.getHorWindSpeed`: `radWindSpeed / cos(deg2rad(elv))`. -/
def getHorWindSpeed (N : ℕ) (x : ℕ → ℝ) (elv : ℝ) : ℝ :=
  getRadWindSpeed N x / Real.cos (deg2rad elv)

/-- `fftWindPropRet.getAzmWind`:
`radWindSpeed * sin(deg2rad(azm) + deg2rad(phase + 180)) / cos(deg2rad(elv))`. -/
def getAzmWind (N : ℕ) (x : ℕ → ℝ) (elv azm : ℝ) : ℝ :=
  getRadWindSpeed N x * Real.sin (deg2rad azm + deg2rad (getPhase N x + 180)) /
    Real.cos (deg2rad elv)

/-- `fftWindPropRet.getWindConpU`: zonal component, `getAzmWind 0`. -/
def getWindConpU (N : ℕ) (x : ℕ → ℝ) (elv : ℝ) : ℝ := getAzmWind N x elv 0

/-- `fftWindPropRet.getWindConpV`: meridional component, `getAzmWind 90`. -/
def getWindConpV (N : ℕ) (x : ℕ → ℝ) (elv : ℝ) : ℝ := getAzmWind N x elv 90

/-- The synthetic pure-first-harmonic continuous scan of the claim:
amplitude `A`, phase `θ₀` (degrees), offset `C₀`, sampled at the scan's
`N` equally spaced azimuths `360*n/N` degrees. -/
def firstHarmonicScan (N : ℕ) (A θ₀ C₀ : ℝ) : ℕ → ℝ := fun n =>
  A * Real.cos (deg2rad (360 * n / N) - deg2rad θ₀) + C₀

end fftWindPropRet

namespace getWindProperties5Beam

/-! ## `getWindProperties5Beam` (windPropRetrieval.py, lines 131-357)

The five-beam DBS retrieval.  Samples are indexed by time position; the
range dimension is an arbitrary type parameter `rng`, all value
operations acting pointwise over it.  Azimuth, elevation, status, cnr
and time stamps are modelled as rationals/integers (they are only
compared for equality or order), radial velocities as `Option ℝ`. -/

/-- The fields of the caller's merged dataset that
`getWindProperties5Beam.__init__` reads or writes, each a per-sample
list (samples in time order). -/
structure MergedDataset where
  radial_wind_speed : List (Option ℝ)
  radial_wind_speed_status : List ℤ
  cnr : List ℚ
  elevation : List ℚ
  azimuth : List ℚ
  measurement_height : List ℚ
  scan_mean_time : List ℚ
deriving DecidableEq

/-- Lines 166-170 of `__init__`, the only statements that write into the
caller's dataset:
`data['radial_wind_speed'] = data.radial_wind_speed.where(data.radial_wind_speed_status==1)`
(when `statusFilter`) and
`data['radial_wind_speed'] = data.radial_wind_speed.where(data.cnr >= cnr)`
(when `cnr != None`); `where` without `drop` keeps the value where the
condition holds and writes NaN elsewhere.  All the remaining statements
of `__init__` only read `data` (`.sel`, `.round`, `.rename`,
`.assign_coords` build new arrays), so the state of the caller's dataset
after construction is exactly this. -/
def init_data_effect (data : MergedDataset) (statusFilter : Bool) (cnr : Option ℚ) :
    MergedDataset :=
  let statusMasked :=
    (data.radial_wind_speed.zip data.radial_wind_speed_status).map
      (fun p => if p.2 = 1 then p.1 else none)
  let d1 := if statusFilter then { data with radial_wind_speed := statusMasked } else data
  match cnr with
  | none => d1
  | some c =>
    let cnrMasked :=
      (d1.radial_wind_speed.zip data.cnr).map (fun p => if c ≤ p.2 then p.1 else none)
    { d1 with radial_wind_speed := cnrMasked }

/-- One slanted-beam time sample as prepared by `__init__`: rounded
azimuth (`azimuthNon90`, `.round(1)` with `360 → 0` applied), elevation
(`elevetionNon90`), scan-mean time (`meanTimeNon90`) and the
radial-velocity profile over the range gates (`radWindSpeedNon90`). -/
structure DbsSample (rng : Type) where
  azm : ℚ
  elv : ℚ
  meanTime : ℚ
  vel : rng → Option ℝ

/-- `compWindSpeed = self.radWindSpeedNon90/(2*np.cos(np.deg2rad(self.elevetionNon90)))`. -/
def compWindSpeed {rng : Type} (s : DbsSample rng) : rng → Option ℝ := fun r =>
  (s.vel r).map fun x => x / (2 * Real.cos (deg2rad (s.elv : ℝ)))

/-- `compWindSpeed.where(self.azimuthNon90 == az, drop=True)` re-indexed
onto the beam's own scan-mean time
(`assign_coords({'time': meanTime…})`): the `(scan-mean time, profile)`
pairs of the beam group at nominal azimuth `az`. -/
def beamGroup {rng : Type} (az : ℚ) (samples : List (DbsSample rng)) :
    List (ℚ × (rng → Option ℝ)) :=
  (samples.filter fun s => s.azm == az).map fun s => (s.meanTime, compWindSpeed s)

/-- Value of the time-indexed array `B` at time label `t` (first match). -/
def lookupTime {rng : Type} (t : ℚ) (B : List (ℚ × (rng → Option ℝ))) :
    Option (rng → Option ℝ) :=
  (B.find? fun q => q.1 == t).map Prod.snd

/-- xarray's automatically aligned subtraction `A - B` of two
time-indexed arrays: inner join on the time coordinate (labels present
in both operands, in `A`'s order), subtracting values pointwise over the
range gates; a NaN operand gives NaN. -/
def alignedDiff {rng : Type} (A B : List (ℚ × (rng → Option ℝ))) :
    List (ℚ × (rng → Option ℝ)) :=
  A.filterMap fun p =>
    match lookupTime p.1 B with
    | none => none
    | some g => some (p.1, fun r => (p.2 r).bind fun a => (g r).map fun b => a - b)

/-- Pointwise negation of a time-indexed array (the outer `-` of
`self.compV = -(compVN - compVS)`). -/
def negGroup {rng : Type} (A : List (ℚ × (rng → Option ℝ))) : List (ℚ × (rng → Option ℝ)) :=
  A.map fun p => (p.1, fun r => (p.2 r).map fun x => -x)

/-- `calcHorWindComp_single_dbs`, meridional component:
`compV = -(compVN - compVS)` with `compVN`/`compVS` the azimuth-0/180
groups on their own scan-mean times. -/
def compV_single {rng : Type} (samples : List (DbsSample rng)) : List (ℚ × (rng → Option ℝ)) :=
  negGroup (alignedDiff (beamGroup 0 samples) (beamGroup 180 samples))

/-- `calcHorWindComp_single_dbs`, zonal component:
`compU = -(compUE - compUW)` with `compUE`/`compUW` the azimuth-90/270
groups on their own scan-mean times. -/
def compU_single {rng : Type} (samples : List (DbsSample rng)) : List (ℚ × (rng → Option ℝ)) :=
  negGroup (alignedDiff (beamGroup 90 samples) (beamGroup 270 samples))

end getWindProperties5Beam

namespace SixBeamMethod

/-! ## `SixBeamMethod.get_m_matrix` (wind_prop_retrieval_6_beam.py, lines 72-117)

The coefficient matrix `M`.  Rows 0-4 are built from the slanted-beam
elevation `elv` (the same for all five beams: `np.ones_like(azm) * elv`)
and the five azimuths `azm`; row 5 is built from `phi = 90`, `theta = 0`
(the vertical beam).  Each row is
`[ci1, ci2, ci3, ci4 * 2, ci5 * 2, ci6 * 2]` with
`ci1 = cos(phi)^2 * sin(theta)^2`, `ci2 = cos(phi)^2 * cos(theta)^2`,
`ci3 = sin(phi)^2`, `ci4 = cos(phi)^2 * cos(theta) * sin(theta)`,
`ci5 = cos(phi) * sin(phi) * sin(theta)`,
`ci6 = cos(phi) * sin(phi) * cos(theta)`. -/

/-- One row of the coefficient matrix, from the beam's `phi`, `theta`
(already in radians): the Python loop body of `get_m_matrix`. -/
def m_matrix_line (phi theta : ℝ) : Fin 6 → ℝ :=
  ![Real.cos phi ^ 2 * Real.sin theta ^ 2,
    Real.cos phi ^ 2 * Real.cos theta ^ 2,
    Real.sin phi ^ 2,
    Real.cos phi ^ 2 * Real.cos theta * Real.sin theta * 2,
    Real.cos phi * Real.sin phi * Real.sin theta * 2,
    Real.cos phi * Real.sin phi * Real.cos theta * 2]

/-- `SixBeamMethod.get_m_matrix`: the 6×6 coefficient matrix. -/
def m_matrix (elv : ℝ) (azm : Fin 5 → ℝ) : Matrix (Fin 6) (Fin 6) ℝ :=
  Matrix.of fun i j =>
    (if h : (i : ℕ) < 5 then
        m_matrix_line (deg2rad elv) (deg2rad (azm ⟨i, h⟩))
      else
        m_matrix_line (deg2rad 90) (deg2rad 0)) j

/-- `SixBeamMethod.get_m_matrix_inv`: `np.linalg.inv(self.m_matrix)`.
`np.linalg.inv` raises `LinAlgError` on a singular matrix, which aborts
the whole retrieval; modelled as `none`. -/
def m_matrix_inv (elv : ℝ) (azm : Fin 5 → ℝ) : Option (Matrix (Fin 6) (Fin 6) ℝ) :=
  if IsUnit (m_matrix elv azm).det then some (m_matrix elv azm)⁻¹ else none

/-! ### Rolling variances (`calc_variances` / `get_variance`,
wind_prop_retrieval_6_beam.py lines 131-167) -/

/-- `int(freq * 0.3)`: the `min_periods` handed to `rolling` (truncation
of `0.3·freq`, modelled in exact arithmetic; xarray rejects
`min_periods <= 0`, so the constructor only accepts window sizes with
`int(freq * 0.3) >= 1`, i.e. `freq >= 4`). -/
def min_periods (freq : ℕ) : ℕ := 3 * freq / 10

/-- The centered rolling window of size `freq` at position `i` of a
series of length `len`: indices `[i - ⌊freq/2⌋, i + ⌊(freq-1)/2⌋]`
clipped to `[0, len)` (xarray `rolling(time=freq, center=True)` pads
`freq // 2` elements before the axis, so an even window has its extra
element on the left, matching pandas' `offset = (freq-1)//2`; the
truncated subtraction performs the clipping at 0). -/
def windowIdx (freq len i : ℕ) : List ℕ :=
  (List.range len).filter fun j => decide (i - freq / 2 ≤ j) && decide (j ≤ i + (freq - 1) / 2)

/-- Variance of the window's present values: xarray's `.var()` with its
default `ddof = 0`. -/
def listVar (l : List ℝ) : ℝ :=
  (l.map fun x => (x - l.sum / (l.length : ℝ)) ^ 2).sum / (l.length : ℝ)

/-- The present (non-NaN) values inside the centered window at `i`. -/
def windowVals (freq : ℕ) (xs : List (Option ℝ)) (i : ℕ) : List ℝ :=
  ((windowIdx freq xs.length i).map fun j => xs.getD j none).reduceOption

/-- One output cell of
`data.rolling(time=freq, center=True, min_periods=int(freq*0.3)).var()`:
xarray emits a non-NaN value iff the window holds at least `min_periods`
present samples and at least one of them (the variance of an all-NaN
window is NaN). -/
def rollingVarCell (freq : ℕ) (xs : List (Option ℝ)) (i : ℕ) : Option ℝ :=
  if min_periods freq ≤ (windowVals freq xs i).length ∧ 1 ≤ (windowVals freq xs i).length then
    some (listVar (windowVals freq xs i))
  else none

/-- `SixBeamMethod.get_variance` on one time series. -/
def get_variance (freq : ℕ) (xs : List (Option ℝ)) : List (Option ℝ) :=
  (List.range xs.length).map (rollingVarCell freq xs)

/-- The series handed to `get_variance` for the vertical beam by
`calc_variances`: `-1 * data.data_transf_90`. -/
def negSeries (xs : List (Option ℝ)) : List (Option ℝ) :=
  xs.map (Option.map fun v => -1 * v)

/-- `rVariance90` as computed by `calc_variances`:
`get_variance(-1 * data.data_transf_90, freq=freq90, name="rVariance90")`. -/
def rVariance90_series (freq90 : ℕ) (vert : List (Option ℝ)) : List (Option ℝ) :=
  get_variance freq90 (negSeries vert)

/-! ### The full pipeline (`__init__` → `get_variance_ds`) -/

/-- Position of the source time nearest to `t` (first position on ties):
the selection performed by
`data.data_transf.interp(time=data.data_transf_90.time, method="nearest")`
for target times inside the source range (a target time outside the
source range, which xarray would fill with NaN, is modelled as snapping
to the nearest end; no claim depends on that boundary). -/
def nearestIdx (ts : List ℚ) (t : ℚ) : ℕ :=
  (List.range ts.length).foldl
    (fun best j => if |ts.getD j 0 - t| < |ts.getD best 0 - t| then j else best) 0

/-- The input object (`lst.GetRestructuredData()`): the slanted
continuous-scan array `data_transf` (time × range × azimuth, with the
scalar elevation `elv` and the five azimuth values `azm` of its
coordinates) and the vertical-beam array `data_transf_90`
(time × range).  `rng` is the range axis. -/
structure RestructuredData (rng : Type) where
  elv : ℝ
  azm : Fin 5 → ℝ
  times : List ℚ
  val : ℕ → rng → Fin 5 → Option ℝ
  times90 : List ℚ
  val90 : ℕ → rng → Option ℝ

/-- The slanted series nearest-interpolated onto the vertical time axis
(`calc_variances`, line 133). -/
def interpSlanted {rng : Type} (d : RestructuredData rng) (i : ℕ) (r : rng) (b : Fin 5) :
    Option ℝ :=
  d.val (nearestIdx d.times (d.times90.getD i 0)) r b

/-- `rVariance`: the rolling variance of the aligned slanted series, per
range gate and beam, along the (vertical) time axis. -/
def rVariance {rng : Type} (d : RestructuredData rng) (freq : ℕ) (r : rng) (b : Fin 5) :
    List (Option ℝ) :=
  get_variance freq ((List.range d.times90.length).map fun i => interpSlanted d i r b)

/-- `rVariance90` of the pipeline: rolling variance of the negated
vertical series. -/
def rVariance90 {rng : Type} (d : RestructuredData rng) (freq90 : ℕ) (r : rng) :
    List (Option ℝ) :=
  rVariance90_series freq90 ((List.range d.times90.length).map fun i => d.val90 i r)

/-- `get_s_matrix`: at one (time, range) cell, the stacked column of the
five slanted variances and the vertical variance (`np.dstack`). -/
def s_matrix {rng : Type} (d : RestructuredData rng) (freq freq90 : ℕ) (i : ℕ) (r : rng) :
    Fin 6 → Option ℝ := fun k =>
  if h : (k : ℕ) < 5 then (rVariance d freq r ⟨k, h⟩).getD i none
  else (rVariance90 d freq90 r).getD i none

/-- `get_sigma`: `SIGMA = M⁻¹ × S` at one (time, range) cell.  The cell
is defined only when the inversion succeeded (otherwise `np.linalg.inv`
aborted the retrieval) and all six stacked variances are present (a NaN
in any component of `S` makes every component of the matmul NaN, since
`0 * NaN = NaN` in IEEE arithmetic). -/
def sigma {rng : Type} (d : RestructuredData rng) (freq freq90 : ℕ) (i : ℕ) (r : rng) :
    Option (Fin 6 → ℝ) :=
  match m_matrix_inv d.elv d.azm with
  | none => none
  | some minv =>
      if h : ∀ k, (s_matrix d freq freq90 i r k).isSome then
        some (minv.mulVec fun k => (s_matrix d freq freq90 i r k).get (h k))
      else none

/-- `get_variance_ds`: component `c` of the named output fields
(`var_u, var_v, var_w, var_uv, var_uw, var_vw` for `c = 0 … 5`) at one
(time, range) cell. -/
def var_comp {rng : Type} (d : RestructuredData rng) (freq freq90 : ℕ) (c : Fin 6) (i : ℕ)
    (r : rng) : Option ℝ :=
  (sigma d freq freq90 i r).map fun v => v c

/-! ### Concrete inputs for the examples -/

/-- Example slanted elevation (degrees): `arcsin(3/5)` ≈ 36.87°, chosen
so every geometry-matrix entry is rational. -/
def elv₀ : ℝ := rad2deg (Real.arcsin (3 / 5))

/-- Example slanted azimuths (degrees): `0, 90, 180, 270` and
`arccos(3/5)` ≈ 53.13°, five distinct azimuths in `[0°, 360°)`. -/
def azm₀ : Fin 5 → ℝ := ![0, 90, 180, 270, rad2deg (Real.arccos (3 / 5))]

/-- The geometry matrix of `elv₀`/`azm₀`, written out. -/
def M₀ : Matrix (Fin 6) (Fin 6) ℝ :=
  Matrix.of
    ![![0, 16/25, 9/25, 0, 0, 24/25],
      ![16/25, 0, 9/25, 0, 24/25, 0],
      ![0, 16/25, 9/25, 0, 0, -(24/25)],
      ![16/25, 0, 9/25, 0, -(24/25), 0],
      ![256/625, 144/625, 9/25, 384/625, 96/125, 72/125],
      ![0, 0, 1, 0, 0, 0]]

/-- The (two-sided) inverse of `M₀`. -/
def B₀ : Matrix (Fin 6) (Fin 6) ℝ :=
  Matrix.of
    ![![0, 25/32, 0, 25/32, 0, -(9/16)],
      ![25/32, 0, 25/32, 0, 0, -(9/16)],
      ![0, 0, 0, 0, 0, 1],
      ![-(25/32), -(75/64), 25/128, 25/192, 625/384, 0],
      ![0, 25/48, 0, -(25/48), 0, 0],
      ![25/48, 0, -(25/48), 0, 0, 0]]

/-- Concrete six-beam input: geometry `elv₀`/`azm₀`, four time steps, one
range gate, all five slanted beams constantly `0`, vertical beam
alternating `+1, -1, +1, -1`. -/
def exampleData : RestructuredData Unit where
  elv := elv₀
  azm := azm₀
  times := [0, 1, 2, 3]
  val := fun _ _ _ => some 0
  times90 := [0, 1, 2, 3]
  val90 := fun i _ => if i % 2 = 0 then some 1 else some (-1)

end SixBeamMethod

end

/-! ## Claim theorems -/

open SixBeamMethod

theorem deg2rad_90 : deg2rad 90 = Real.pi / 2 := by
  unfold deg2rad; ring

theorem deg2rad_zero : deg2rad 0 = 0 := by
  unfold deg2rad; ring

namespace SixBeamMethod

theorem m_matrix_slanted_row (elv : ℝ) (azm : Fin 5 → ℝ) (i : Fin 5) :
    m_matrix elv azm i.castSucc = m_matrix_line (deg2rad elv) (deg2rad (azm i)) := by
  funext j
  have h : ((i.castSucc : Fin 6) : ℕ) < 5 := i.isLt
  simp only [m_matrix, Matrix.of_apply, dif_pos h]
  congr 1

theorem m_matrix_vertical_row (elv : ℝ) (azm : Fin 5 → ℝ) :
    m_matrix elv azm 5 = m_matrix_line (deg2rad 90) (deg2rad 0) := by
  funext j
  have h : ¬ (((5 : Fin 6) : ℕ) < 5) := by decide
  simp only [m_matrix, Matrix.of_apply, dif_neg h]

theorem m_matrix_line_vertical :
    m_matrix_line (deg2rad 90) (deg2rad 0) = ![0, 0, 1, 0, 0, 0] := by
  funext j
  fin_cases j <;>
    simp [m_matrix_line, deg2rad_90, deg2rad_zero, Real.cos_pi_div_two, Real.sin_pi_div_two]

end SixBeamMethod

namespace fftWindPropRet

lemma complex_cos_exp (z : ℂ) :
    Complex.cos z = (Complex.exp (z * Complex.I) + Complex.exp (-z * Complex.I)) / 2 := rfl

lemma two_pi_I_ne_zero : (2 * (Real.pi : ℂ) * Complex.I) ≠ 0 := by
  simp [mul_eq_zero, Complex.ofReal_eq_zero, Real.pi_ne_zero, Complex.I_ne_zero]

lemma u_pow (n : ℕ) :
    Complex.exp (-(2 * (Real.pi : ℂ) * Complex.I) / 5) ^ n
      = Complex.exp (-(2 * (Real.pi : ℂ) * Complex.I) * n / 5) := by
  rw [← Complex.exp_nat_mul]
  congr 1
  ring

lemma v_pow (n : ℕ) :
    Complex.exp ((2 * (Real.pi : ℂ) * Complex.I) / 5) ^ n
      = Complex.exp ((2 * (Real.pi : ℂ) * Complex.I) * n / 5) := by
  rw [← Complex.exp_nat_mul]
  congr 1
  ring

lemma u_pow_five : Complex.exp (-(2 * (Real.pi : ℂ) * Complex.I) / 5) ^ 5 = 1 := by
  rw [u_pow]
  have h : -(2 * (Real.pi : ℂ) * Complex.I) * ((5 : ℕ) : ℂ) / 5
      = ((-1 : ℤ) : ℂ) * (2 * (Real.pi : ℂ) * Complex.I) := by
    push_cast
    ring
  rw [h, Complex.exp_int_mul_two_pi_mul_I]

lemma u_sq_pow_five : (Complex.exp (-(2 * (Real.pi : ℂ) * Complex.I) / 5) ^ 2) ^ 5 = 1 := by
  rw [← pow_mul]
  norm_num
  rw [u_pow]
  have h : -(2 * (Real.pi : ℂ) * Complex.I) * ((10 : ℕ) : ℂ) / 5
      = ((-2 : ℤ) : ℂ) * (2 * (Real.pi : ℂ) * Complex.I) := by
    push_cast
    ring
  rw [h, Complex.exp_int_mul_two_pi_mul_I]

lemma exp_j_div_five_ne_one (j : ℤ) (hj : ¬ (5 : ℤ) ∣ j) :
    Complex.exp ((j : ℂ) * (2 * (Real.pi : ℂ) * Complex.I) / 5) ≠ 1 := by
  intro h
  rw [Complex.exp_eq_one_iff] at h
  obtain ⟨m, hm⟩ := h
  have hz : ((j - 5 * m : ℤ) : ℂ) * (2 * (Real.pi : ℂ) * Complex.I) = 0 := by
    push_cast
    linear_combination 5 * hm
  rcases mul_eq_zero.mp hz with h4 | h4
  · have hzz : (j - 5 * m : ℤ) = 0 := by exact_mod_cast h4
    exact hj ⟨m, by omega⟩
  · exact two_pi_I_ne_zero h4

lemma u_ne_one : Complex.exp (-(2 * (Real.pi : ℂ) * Complex.I) / 5) ≠ 1 := by
  have h := exp_j_div_five_ne_one (-1) (by decide)
  have he : ((-1 : ℤ) : ℂ) * (2 * (Real.pi : ℂ) * Complex.I) / 5
      = -(2 * (Real.pi : ℂ) * Complex.I) / 5 := by
    push_cast
    ring
  rwa [he] at h

lemma u_sq_ne_one : Complex.exp (-(2 * (Real.pi : ℂ) * Complex.I) / 5) ^ 2 ≠ 1 := by
  have h := exp_j_div_five_ne_one (-2) (by decide)
  have he : ((-2 : ℤ) : ℂ) * (2 * (Real.pi : ℂ) * Complex.I) / 5
      = -(2 * (Real.pi : ℂ) * Complex.I) * ((2 : ℕ) : ℂ) / 5 := by
    push_cast
    ring
  rw [he] at h
  rwa [u_pow 2]

lemma dft5_firstHarmonic (A θ₀ C₀ : ℝ) :
    dft 5 (firstHarmonicScan 5 A θ₀ C₀) 1
      = ((5 * A / 2 : ℝ) : ℂ) * Complex.exp (-((deg2rad θ₀ : ℝ) : ℂ) * Complex.I) := by
  have step : ∀ n ∈ Finset.range 5,
      ((firstHarmonicScan 5 A θ₀ C₀ n : ℝ) : ℂ) *
          Complex.exp (-(2 * (Real.pi : ℂ) * Complex.I * ((1 : ℤ) : ℂ) * (n : ℂ)) / ((5 : ℕ) : ℂ))
        = ((A / 2 : ℝ) : ℂ) * Complex.exp (-((deg2rad θ₀ : ℝ) : ℂ) * Complex.I)
          + (((A / 2 : ℝ) : ℂ) * Complex.exp (((deg2rad θ₀ : ℝ) : ℂ) * Complex.I)) *
              (Complex.exp (-(2 * (Real.pi : ℂ) * Complex.I) / 5) ^ 2) ^ n
          + ((C₀ : ℝ) : ℂ) * Complex.exp (-(2 * (Real.pi : ℂ) * Complex.I) / 5) ^ n := by
    intro n _
    have harg : (deg2rad (360 * (n : ℝ) / 5) : ℝ) = 2 * Real.pi * (n : ℝ) / 5 := by
      unfold deg2rad
      ring
    have e1 : Complex.exp ((((2 * Real.pi * (n : ℝ) / 5 : ℝ) : ℂ) - ((deg2rad θ₀ : ℝ) : ℂ)) * Complex.I)
        = Complex.exp ((2 * (Real.pi : ℂ) * Complex.I) / 5) ^ n *
            Complex.exp (-((deg2rad θ₀ : ℝ) : ℂ) * Complex.I) := by
      rw [v_pow, ← Complex.exp_add]
      congr 1
      push_cast
      ring
    have e2 : Complex.exp ((-((((2 * Real.pi * (n : ℝ) / 5 : ℝ) : ℂ)) - ((deg2rad θ₀ : ℝ) : ℂ))) * Complex.I)
        = Complex.exp (-(2 * (Real.pi : ℂ) * Complex.I) / 5) ^ n *
            Complex.exp (((deg2rad θ₀ : ℝ) : ℂ) * Complex.I) := by
      rw [u_pow, ← Complex.exp_add]
      congr 1
      push_cast
      ring
    have e3 : Complex.exp (-(2 * (Real.pi : ℂ) * Complex.I * ((1 : ℤ) : ℂ) * (n : ℂ)) / ((5 : ℕ) : ℂ))
        = Complex.exp (-(2 * (Real.pi : ℂ) * Complex.I) / 5) ^ n := by
      rw [u_pow]
      congr 1
      push_cast
      ring
    have hvu : Complex.exp ((2 * (Real.pi : ℂ) * Complex.I) / 5) ^ n *
        Complex.exp (-(2 * (Real.pi : ℂ) * Complex.I) / 5) ^ n = 1 := by
      rw [← mul_pow, ← Complex.exp_add]
      have hz : (2 * (Real.pi : ℂ) * Complex.I) / 5 + -(2 * (Real.pi : ℂ) * Complex.I) / 5 = 0 := by
        ring
      rw [hz, Complex.exp_zero, one_pow]
    simp only [firstHarmonicScan]
    rw [e3]
    push_cast
    rw [harg]
    rw [complex_cos_exp]
    rw [e1, e2]
    set vn := Complex.exp ((2 * (Real.pi : ℂ) * Complex.I) / 5) ^ n with hvn
    set un := Complex.exp (-(2 * (Real.pi : ℂ) * Complex.I) / 5) ^ n with hun
    have hsq : (Complex.exp (-(2 * (Real.pi : ℂ) * Complex.I) / 5) ^ 2) ^ n = un ^ 2 := by
      rw [hun, ← pow_mul, ← pow_mul, mul_comm 2 n]
    rw [hsq]
    linear_combination (((A : ℂ) / 2) * Complex.exp (-((deg2rad θ₀ : ℝ) : ℂ) * Complex.I)) * hvu
  unfold dft
  rw [Finset.sum_congr rfl step]
  rw [Finset.sum_add_distrib, Finset.sum_add_distrib, Finset.sum_const, Finset.card_range,
    ← Finset.mul_sum, ← Finset.mul_sum]
  rw [geom_sum_eq u_sq_ne_one, geom_sum_eq u_ne_one, u_sq_pow_five, u_pow_five]
  simp only [nsmul_eq_mul]
  push_cast
  ring

lemma getCompAmp5_firstHarmonic (A θ₀ C₀ : ℝ) :
    getCompAmp 5 (firstHarmonicScan 5 A θ₀ C₀)
      = ((5 * A / 2 : ℝ) : ℂ) * Complex.exp (-((deg2rad θ₀ : ℝ) : ℂ) * Complex.I) := by
  rw [getCompAmp, show selectedHarmonic 5 = 1 from by decide]
  exact dft5_firstHarmonic A θ₀ C₀

end fftWindPropRet

open fftWindPropRet

/-- **C1 (amended).** For a synthetic continuous azimuthal scan with
**five** equally spaced azimuths whose radial velocity is the pure first
harmonic `A·cos(θ - θ₀) + C₀` (amplitude `A > 0`, phase `θ₀`, offset
`C₀`, per-profile elevation `φ ∈ [0°, 90°)`) sampled at the scan's
azimuths, `fftWindPropRet` retrieves horizontal wind speed `A / cos φ`
and wind direction `θ₀ + 180°` (mod 360°); in particular with five
azimuths the coefficient selected at index `-2` of the azimuthal
frequency axis is the fundamental one-cycle-per-rotation harmonic.
(The original claim, quantified over scans with any number of equally
spaced azimuths, is refuted by `C1_counterexample_four_azimuths`.) -/
theorem C1_fft_first_harmonic_retrieval (A θ₀ C₀ elv : ℝ)
    (hA : 0 < A) (helv0 : 0 ≤ elv) (helv90 : elv < 90) :
    selectedHarmonic 5 = 1 ∧
    getHorWindSpeed 5 (firstHarmonicScan 5 A θ₀ C₀) elv = A / Real.cos (deg2rad elv) ∧
    ∃ m : ℤ, getWindDir 5 (firstHarmonicScan 5 A θ₀ C₀) = θ₀ + 180 + 360 * m := by
  refine ⟨by decide, ?_, ?_⟩
  · rw [getHorWindSpeed, getRadWindSpeed, getCompAmp5_firstHarmonic]
    rw [map_mul Complex.abs, Complex.abs_ofReal]
    have hsh : (-((deg2rad θ₀ : ℝ) : ℂ)) * Complex.I = ((-(deg2rad θ₀) : ℝ) : ℂ) * Complex.I := by
      push_cast
      ring
    rw [hsh, Complex.abs_exp_ofReal_mul_I]
    rw [abs_of_pos (by positivity : (0 : ℝ) < 5 * A / 2)]
    push_cast
    ring
  · rw [getWindDir, getPhase, getCompAmp5_firstHarmonic]
    have hsh : (-((deg2rad θ₀ : ℝ) : ℂ)) * Complex.I = ((-(deg2rad θ₀) : ℝ) : ℂ) * Complex.I := by
      push_cast
      ring
    rw [hsh]
    rw [Complex.arg_real_mul _ (by positivity : (0 : ℝ) < 5 * A / 2)]
    rw [Complex.arg_exp_mul_I]
    refine ⟨toIocDiv (mul_pos two_pos Real.pi_pos) (-Real.pi) (-(deg2rad θ₀)), ?_⟩
    have hmod := self_sub_toIocMod (mul_pos two_pos Real.pi_pos) (-Real.pi) (-(deg2rad θ₀))
    rw [zsmul_eq_mul] at hmod
    have htm : toIocMod (mul_pos two_pos Real.pi_pos) (-Real.pi) (-(deg2rad θ₀))
        = -(deg2rad θ₀) -
          (toIocDiv (mul_pos two_pos Real.pi_pos) (-Real.pi) (-(deg2rad θ₀)) : ℝ) * (2 * Real.pi) := by
      linarith
    rw [htm]
    unfold rad2deg deg2rad
    have hπ := Real.pi_ne_zero
    field_simp
    ring

/-- Witness for C1: concrete scan `A = 1`, `θ₀ = 30°`, `C₀ = 2`, `φ = 0°`. -/
theorem C1_fft_first_harmonic_retrieval_witness :
    (0 : ℝ) < 1 ∧ (0 : ℝ) ≤ 0 ∧ (0 : ℝ) < 90 ∧
    (selectedHarmonic 5 = 1 ∧
     getHorWindSpeed 5 (firstHarmonicScan 5 1 30 2) 0 = 1 / Real.cos (deg2rad 0) ∧
     ∃ m : ℤ, getWindDir 5 (firstHarmonicScan 5 1 30 2) = 30 + 180 + 360 * m) :=
  ⟨by norm_num, by norm_num, by norm_num,
    C1_fft_first_harmonic_retrieval 1 30 2 0 (by norm_num) (by norm_num) (by norm_num)⟩

/-- **C1 counterexample.** For a scan with four equally spaced azimuths,
the pure first harmonic `1·cos(θ - 0) + 0` at elevation `0°` is NOT
retrieved as claimed: the bin at python index `-2` is the zero-frequency
(DC) bin, not the fundamental harmonic, and the retrieved horizontal
wind speed is `0`, not `A / cos φ = 1`. -/
theorem C1_counterexample_four_azimuths :
    selectedHarmonic 4 ≠ 1 ∧
    getHorWindSpeed 4 (firstHarmonicScan 4 1 0 0) 0 = 0 ∧
    (1 : ℝ) / Real.cos (deg2rad 0) = 1 := by
  refine ⟨by decide, ?_, by rw [deg2rad_zero, Real.cos_zero]; norm_num⟩
  have hexp : ∀ n : ℕ,
      Complex.exp (-(2 * (Real.pi : ℂ) * Complex.I * ((0 : ℤ) : ℂ) * (n : ℂ)) / ((4 : ℕ) : ℂ)) = 1 := by
    intro n
    have hz : (-(2 * (Real.pi : ℂ) * Complex.I * ((0 : ℤ) : ℂ) * (n : ℂ)) / ((4 : ℕ) : ℂ)) = 0 := by
      push_cast
      ring
    rw [hz, Complex.exp_zero]
  have v0 : firstHarmonicScan 4 1 0 0 0 = 1 := by
    unfold firstHarmonicScan
    norm_num [deg2rad_zero]
  have v1 : firstHarmonicScan 4 1 0 0 1 = 0 := by
    unfold firstHarmonicScan
    have h : deg2rad (360 * ((1 : ℕ) : ℝ) / ((4 : ℕ) : ℝ)) - deg2rad 0 = Real.pi / 2 := by
      unfold deg2rad
      push_cast
      ring
    rw [h, Real.cos_pi_div_two]
    ring
  have v2 : firstHarmonicScan 4 1 0 0 2 = -1 := by
    unfold firstHarmonicScan
    have h : deg2rad (360 * ((2 : ℕ) : ℝ) / ((4 : ℕ) : ℝ)) - deg2rad 0 = Real.pi := by
      unfold deg2rad
      push_cast
      ring
    rw [h, Real.cos_pi]
    ring
  have v3 : firstHarmonicScan 4 1 0 0 3 = 0 := by
    unfold firstHarmonicScan
    have h : deg2rad (360 * ((3 : ℕ) : ℝ) / ((4 : ℕ) : ℝ)) - deg2rad 0 = Real.pi + Real.pi / 2 := by
      unfold deg2rad
      push_cast
      ring
    rw [h, Real.cos_add, Real.cos_pi, Real.sin_pi, Real.cos_pi_div_two]
    ring
  have hc : getCompAmp 4 (firstHarmonicScan 4 1 0 0) = 0 := by
    rw [getCompAmp, show selectedHarmonic 4 = 0 from by decide]
    unfold dft
    rw [Finset.sum_range_succ, Finset.sum_range_succ, Finset.sum_range_succ,
      Finset.sum_range_succ, Finset.sum_range_zero]
    rw [hexp 0, hexp 1, hexp 2, hexp 3, v0, v1, v2, v3]
    norm_num
  rw [getHorWindSpeed, getRadWindSpeed, hc]
  simp

/-- **C4.** `get_m_matrix` builds, for each of the five slanted beams with
elevation φ and azimuth θ, the row
`(cos²φ·sin²θ, cos²φ·cos²θ, sin²φ, 2·cos²φ·cosθ·sinθ, 2·cosφ·sinφ·sinθ, 2·cosφ·sinφ·cosθ)`,
and the sixth row, built with φ = 90° and θ = 0°, equals exactly
`(0, 0, 1, 0, 0, 0)` in exact arithmetic. -/
theorem C4_m_matrix_rows :
    (∀ (elv : ℝ) (azm : Fin 5 → ℝ) (i : Fin 5),
      m_matrix elv azm i.castSucc =
        ![Real.cos (deg2rad elv) ^ 2 * Real.sin (deg2rad (azm i)) ^ 2,
          Real.cos (deg2rad elv) ^ 2 * Real.cos (deg2rad (azm i)) ^ 2,
          Real.sin (deg2rad elv) ^ 2,
          2 * Real.cos (deg2rad elv) ^ 2 * Real.cos (deg2rad (azm i)) * Real.sin (deg2rad (azm i)),
          2 * Real.cos (deg2rad elv) * Real.sin (deg2rad elv) * Real.sin (deg2rad (azm i)),
          2 * Real.cos (deg2rad elv) * Real.sin (deg2rad elv) * Real.cos (deg2rad (azm i))]) ∧
    (∀ (elv : ℝ) (azm : Fin 5 → ℝ),
      m_matrix elv azm 5 = ![0, 0, 1, 0, 0, 0]) := by
  constructor
  · intro elv azm i
    rw [m_matrix_slanted_row]
    funext j
    fin_cases j <;> simp [m_matrix_line] <;> ring_nf
  · intro elv azm
    rw [m_matrix_vertical_row, m_matrix_line_vertical]

namespace SixBeamMethod

lemma negSeries_getD (xs : List (Option ℝ)) (j : ℕ) :
    (negSeries xs).getD j none = Option.map (fun v => -1 * v) (xs.getD j none) := by
  have h := List.getD_map (l := xs) (n := j) (d := none) (Option.map fun v => -1 * v)
  simpa [negSeries] using h

lemma negSeries_length (xs : List (Option ℝ)) : (negSeries xs).length = xs.length := by
  simp [negSeries]

lemma windowVals_negSeries (freq : ℕ) (xs : List (Option ℝ)) (i : ℕ) :
    windowVals freq (negSeries xs) i = (windowVals freq xs i).map fun v => -1 * v := by
  unfold windowVals
  rw [negSeries_length]
  have hmap : ((windowIdx freq xs.length i).map fun j => (negSeries xs).getD j none)
      = ((windowIdx freq xs.length i).map fun j => xs.getD j none).map
          (Option.map fun v => -1 * v) := by
    rw [List.map_map]
    exact List.map_congr_left fun j _ => negSeries_getD xs j
  rw [hmap, List.reduceOption_map]

lemma sum_map_neg_one_mul (l : List ℝ) : (l.map fun v => -1 * v).sum = -l.sum := by
  induction l with
  | nil => simp
  | cons a t ih =>
      simp only [List.map_cons, List.sum_cons, ih]
      ring

lemma listVar_neg_one_mul (l : List ℝ) :
    listVar (l.map fun v => -1 * v) = listVar l := by
  unfold listVar
  rw [List.length_map, List.map_map, sum_map_neg_one_mul]
  congr 1
  exact congrArg List.sum
    (List.map_congr_left fun x _ => by simp only [Function.comp_apply]; ring)

lemma rollingVarCell_negSeries (freq : ℕ) (xs : List (Option ℝ)) (i : ℕ) :
    rollingVarCell freq (negSeries xs) i = rollingVarCell freq xs i := by
  unfold rollingVarCell
  rw [windowVals_negSeries, List.length_map, listVar_neg_one_mul]

end SixBeamMethod

/-- **C10.** Negating the vertical-beam series before the rolling variance
is an identity operation: for every real series and every window size the
windowed variance of `-X` equals that of `X`, so the `rVariance90` result
of `calc_variances` is unchanged if the `-1` factor is dropped. -/
theorem C10_neg_series_variance_invariant :
    (∀ (freq : ℕ) (xs : List (Option ℝ)),
      get_variance freq (negSeries xs) = get_variance freq xs) ∧
    (∀ (freq90 : ℕ) (vert : List (Option ℝ)),
      rVariance90_series freq90 vert = get_variance freq90 vert) := by
  have h : ∀ (freq : ℕ) (xs : List (Option ℝ)),
      get_variance freq (negSeries xs) = get_variance freq xs := by
    intro freq xs
    unfold get_variance
    rw [negSeries_length]
    exact List.map_congr_left fun i _ => rollingVarCell_negSeries freq xs i
  exact ⟨h, fun freq90 vert => by rw [rVariance90_series]; exact h freq90 vert⟩

namespace SixBeamMethod

lemma get_variance_getD (freq : ℕ) (xs : List (Option ℝ)) (i : ℕ) (hi : i < xs.length) :
    (get_variance freq xs).getD i none = rollingVarCell freq xs i := by
  unfold get_variance
  rw [List.getD_eq_getD_get?, List.get?_map]
  rw [List.get?_range hi]
  rfl

end SixBeamMethod

/-- **C8 (amended).** For every window size `freq` accepted by the
rolling constructor (xarray requires `min_periods = int(freq*0.3) ≥ 1`),
`get_variance` emits a value at a time point iff the centered window
there holds at least `int(freq * 0.3)` present samples; with fewer the
output at that point is missing (`none`), never an error.  (The claim's
"at least 30 % of the `freq` samples" is refuted by
`C8_counterexample_seven_window`: with `freq = 7` a value is emitted
from 2 present samples, `2/7 < 30 %`.) -/
theorem C8_emission_rule (freq : ℕ) (xs : List (Option ℝ)) (i : ℕ) (hi : i < xs.length)
    (hmp : 1 ≤ min_periods freq) :
    ((get_variance freq xs).getD i none ≠ none ↔
      min_periods freq ≤ (windowVals freq xs i).length) := by
  rw [get_variance_getD freq xs i hi]
  unfold rollingVarCell
  split
  · next hc => simp only [ne_eq, reduceCtorEq, not_false_eq_true, true_iff]; exact hc.1
  · next hc =>
      simp only [ne_eq, not_true_eq_false, false_iff]
      intro hn
      exact hc ⟨hn, le_trans hmp hn⟩

/-- Witness for C8: `freq = 10`, a three-sample window series. -/
theorem C8_emission_rule_witness :
    0 < [some (1 : ℝ), none, some 2].length ∧ 1 ≤ min_periods 10 ∧
    ((get_variance 10 [some (1 : ℝ), none, some 2]).getD 0 none ≠ none ↔
      min_periods 10 ≤ (windowVals 10 [some (1 : ℝ), none, some 2] 0).length) :=
  ⟨by norm_num, by norm_num [min_periods],
    C8_emission_rule 10 [some 1, none, some 2] 0 (by norm_num) (by norm_num [min_periods])⟩

/-- **C8 counterexample.** With `freq = 7` and the two-sample series
`[0, 1]`, the (clipped) centered window at position 0 holds 2 present
samples — fewer than 30 % of 7 — yet a value (`1/4`) is emitted:
`get_variance` requires `int(0.3·freq)` samples (truncated), not 30 %. -/
theorem C8_counterexample_seven_window :
    (get_variance 7 [some (0 : ℝ), some 1]).getD 0 none = some (1 / 4) ∧
    (windowVals 7 [some (0 : ℝ), some 1] 0).length = 2 ∧
    ¬ ((0.3 * 7 : ℝ) ≤ 2) := by
  have hw : windowVals 7 [some (0 : ℝ), some 1] 0 = [0, 1] := by
    simp [windowVals, windowIdx, List.range_succ]
  refine ⟨?_, by rw [hw]; rfl, by norm_num⟩
  rw [get_variance_getD 7 _ 0 (by norm_num), rollingVarCell, hw]
  rw [if_pos (by constructor <;> norm_num [min_periods])]
  norm_num [listVar]

open getWindProperties5Beam

/-- **C3 counterexample.** Constructing `getWindProperties5Beam` with the
default `statusFilter=True` on a dataset holding one sample whose status
flag is not 1 overwrites the caller's `radial_wind_speed` in place (the
sample becomes missing): the input dataset is NOT left unchanged. -/
theorem C3_counterexample_status_filter_mutates :
    init_data_effect ⟨[some 1], [0], [0], [90], [0], [100], [50]⟩ true none
      ≠ ⟨[some 1], [0], [0], [90], [0], [100], [50]⟩ := by
  intro h
  have h2 := congrArg MergedDataset.radial_wind_speed h
  simp [init_data_effect] at h2

/-- **C3 (amended).** Constructing `getWindProperties5Beam` with
`statusFilter=False` and `cnr=None` leaves the input dataset unchanged;
with `statusFilter=True` (the default) or a `cnr` threshold, the
caller's `radial_wind_speed` field is overwritten in place by the
status-flag / carrier-to-noise masking
(`C3_counterexample_status_filter_mutates`). -/
theorem C3_no_mutation_without_filters (data : MergedDataset) :
    init_data_effect data false none = data := rfl

namespace getWindProperties5Beam

lemma mem_beamGroup {rng : Type} {az : ℚ} {samples : List (DbsSample rng)}
    {p : ℚ × (rng → Option ℝ)} (hp : p ∈ beamGroup az samples) :
    ∃ s ∈ samples, s.azm = az ∧ p = (s.meanTime, compWindSpeed s) := by
  unfold beamGroup at hp
  rw [List.mem_map] at hp
  obtain ⟨s, hs, heq⟩ := hp
  rw [List.mem_filter] at hs
  exact ⟨s, hs.1, by simpa using hs.2, heq.symm⟩

lemma beamGroup_mem {rng : Type} {az : ℚ} {samples : List (DbsSample rng)}
    {s : DbsSample rng} (hs : s ∈ samples) (haz : s.azm = az) :
    (s.meanTime, compWindSpeed s) ∈ beamGroup az samples := by
  unfold beamGroup
  rw [List.mem_map]
  exact ⟨s, List.mem_filter.mpr ⟨hs, by simpa using haz⟩, rfl⟩

lemma lookupTime_some {rng : Type} {t : ℚ} {B : List (ℚ × (rng → Option ℝ))}
    {g : rng → Option ℝ} (h : lookupTime t B = some g) :
    ∃ q ∈ B, q.1 = t ∧ q.2 = g := by
  unfold lookupTime at h
  cases hf : B.find? fun q => q.1 == t with
  | none => rw [hf] at h; simp at h
  | some q =>
      rw [hf] at h
      simp only [Option.map_some'] at h
      have hq := List.mem_of_find?_eq_some hf
      have hqt := List.find?_some hf
      exact ⟨q, hq, by simpa using hqt, Option.some_inj.mp h⟩

lemma mem_alignedDiff {rng : Type} {A B : List (ℚ × (rng → Option ℝ))}
    {p : ℚ × (rng → Option ℝ)} (hp : p ∈ alignedDiff A B) :
    ∃ pa ∈ A, ∃ qb ∈ B, qb.1 = pa.1 ∧ p.1 = pa.1 ∧
      ∀ r, p.2 r = (pa.2 r).bind fun a => (qb.2 r).map fun b => a - b := by
  unfold alignedDiff at hp
  rw [List.mem_filterMap] at hp
  obtain ⟨pa, hpa, heq⟩ := hp
  cases hl : lookupTime pa.1 B with
  | none => rw [hl] at heq; simp at heq
  | some g =>
      rw [hl] at heq
      simp only [Option.some_inj] at heq
      obtain ⟨qb, hqb, hqt, hqg⟩ := lookupTime_some hl
      refine ⟨pa, hpa, qb, hqb, hqt, ?_, ?_⟩
      · rw [← heq]
      · intro r
        rw [← heq, hqg]

lemma mem_negGroup {rng : Type} {A : List (ℚ × (rng → Option ℝ))}
    {p : ℚ × (rng → Option ℝ)} (hp : p ∈ negGroup A) :
    ∃ q ∈ A, p.1 = q.1 ∧ ∀ r, p.2 r = (q.2 r).map fun x => -x := by
  unfold negGroup at hp
  rw [List.mem_map] at hp
  obtain ⟨q, hq, heq⟩ := hp
  exact ⟨q, hq, by rw [← heq], fun r => by rw [← heq]⟩

end getWindProperties5Beam

/-- **C7.** Two independent conditionals, as in the claim: if the
east-beam (azimuth 90°) and west-beam (azimuth 270°) samples agree —
equal scan-mean times carry equal elevations and equal radial-velocity
profiles — every defined value of the retrieved zonal component is
exactly zero; and independently, if north (0°) and south (180°) samples
agree, every defined meridional value is exactly zero. -/
theorem C7_opposing_beam_cancellation {rng : Type} (samples : List (DbsSample rng)) :
    ((∀ s t : DbsSample rng, s ∈ samples → t ∈ samples → s.azm = 90 → t.azm = 270 →
        s.meanTime = t.meanTime → s.elv = t.elv ∧ s.vel = t.vel) →
      ∀ p ∈ compU_single samples, ∀ (r : rng) (v : ℝ), p.2 r = some v → v = 0) ∧
    ((∀ s t : DbsSample rng, s ∈ samples → t ∈ samples → s.azm = 0 → t.azm = 180 →
        s.meanTime = t.meanTime → s.elv = t.elv ∧ s.vel = t.vel) →
      ∀ p ∈ compV_single samples, ∀ (r : rng) (v : ℝ), p.2 r = some v → v = 0) := by
  constructor
  · intro hEW p hp r v hv
    obtain ⟨q, hq, hpt, hpv⟩ := mem_negGroup hp
    obtain ⟨pa, hpa, qb, hqb, hqt, hqpt, hdiff⟩ := mem_alignedDiff hq
    obtain ⟨s, hs, hsaz, hseq⟩ := mem_beamGroup hpa
    obtain ⟨t, ht, htaz, hteq⟩ := mem_beamGroup hqb
    have hmt : s.meanTime = t.meanTime := by
      have h1 : pa.1 = s.meanTime := by rw [hseq]
      have h2 : qb.1 = t.meanTime := by rw [hteq]
      rw [h1, h2] at hqt
      exact hqt.symm
    obtain ⟨helv, hvel⟩ := hEW s t hs ht hsaz htaz hmt
    rw [hpv r, hdiff r] at hv
    have hsv : pa.2 = compWindSpeed s := by rw [hseq]
    have htv : qb.2 = compWindSpeed t := by rw [hteq]
    rw [hsv, htv] at hv
    unfold compWindSpeed at hv
    rw [← hvel, ← helv] at hv
    cases hvl : s.vel r with
    | none => rw [hvl] at hv; simp at hv
    | some a =>
        rw [hvl] at hv
        simp only [Option.map_some', Option.some_bind, Option.map_some'] at hv
        have : v = -(a / (2 * Real.cos (deg2rad (s.elv : ℝ)))
            - a / (2 * Real.cos (deg2rad (s.elv : ℝ)))) := by
          exact_mod_cast (Option.some_inj.mp hv).symm
        rw [this]
        ring
  · intro hNS p hp r v hv
    obtain ⟨q, hq, hpt, hpv⟩ := mem_negGroup hp
    obtain ⟨pa, hpa, qb, hqb, hqt, hqpt, hdiff⟩ := mem_alignedDiff hq
    obtain ⟨s, hs, hsaz, hseq⟩ := mem_beamGroup hpa
    obtain ⟨t, ht, htaz, hteq⟩ := mem_beamGroup hqb
    have hmt : s.meanTime = t.meanTime := by
      have h1 : pa.1 = s.meanTime := by rw [hseq]
      have h2 : qb.1 = t.meanTime := by rw [hteq]
      rw [h1, h2] at hqt
      exact hqt.symm
    obtain ⟨helv, hvel⟩ := hNS s t hs ht hsaz htaz hmt
    rw [hpv r, hdiff r] at hv
    have hsv : pa.2 = compWindSpeed s := by rw [hseq]
    have htv : qb.2 = compWindSpeed t := by rw [hteq]
    rw [hsv, htv] at hv
    unfold compWindSpeed at hv
    rw [← hvel, ← helv] at hv
    cases hvl : s.vel r with
    | none => rw [hvl] at hv; simp at hv
    | some a =>
        rw [hvl] at hv
        simp only [Option.map_some', Option.some_bind, Option.map_some'] at hv
        have : v = -(a / (2 * Real.cos (deg2rad (s.elv : ℝ)))
            - a / (2 * Real.cos (deg2rad (s.elv : ℝ)))) := by
          exact_mod_cast (Option.some_inj.mp hv).symm
        rw [this]
        ring

/-- Witness for C7: a symmetric concrete scan (east = west, north = south
radial velocities at the shared scan-mean time). -/
theorem C7_opposing_beam_cancellation_witness :
    (∀ p ∈ compU_single
        [(⟨90, 45, 100, fun _ => some 3⟩ : DbsSample Unit), ⟨270, 45, 100, fun _ => some 3⟩,
          ⟨0, 45, 100, fun _ => some 5⟩, ⟨180, 45, 100, fun _ => some 5⟩],
      ∀ (r : Unit) (v : ℝ), p.2 r = some v → v = 0) ∧
    (∀ p ∈ compV_single
        [(⟨90, 45, 100, fun _ => some 3⟩ : DbsSample Unit), ⟨270, 45, 100, fun _ => some 3⟩,
          ⟨0, 45, 100, fun _ => some 5⟩, ⟨180, 45, 100, fun _ => some 5⟩],
      ∀ (r : Unit) (v : ℝ), p.2 r = some v → v = 0) := by
  refine ⟨(C7_opposing_beam_cancellation _).1 ?_, (C7_opposing_beam_cancellation _).2 ?_⟩ <;>
  · intro s t hs ht hsaz htaz hmt
    simp only [List.mem_cons, List.not_mem_nil, or_false] at hs ht
    rcases hs with rfl | rfl | rfl | rfl <;> rcases ht with rfl | rfl | rfl | rfl <;>
      first
        | exact ⟨rfl, rfl⟩
        | (exfalso; norm_num at hsaz htaz)

/-- **C6.** Under the single-scan DBS policy
(`calcHorWindComp_single_dbs`): each slanted-beam radial velocity is
divided by `2·cos(elevation)`; the scaled samples are grouped strictly
by (rounded) nominal azimuth 0°/180°/90°/270°, each group re-indexed
onto its own scan-mean time; and the outputs pair groups only at equal
scan-mean times (no cross-beam nearest-time matching), with
meridional `= -(north - south)` and zonal `= -(east - west)`. -/
theorem C6_single_dbs_characterization {rng : Type} (samples : List (DbsSample rng)) :
    (∀ (az : ℚ) (s : DbsSample rng), s ∈ samples → s.azm = az →
      (s.meanTime, fun r => (s.vel r).map fun x => x / (2 * Real.cos (deg2rad (s.elv : ℝ))))
        ∈ beamGroup az samples) ∧
    (∀ (az : ℚ) (p : ℚ × (rng → Option ℝ)), p ∈ beamGroup az samples →
      ∃ s ∈ samples, s.azm = az ∧ p.1 = s.meanTime ∧
        ∀ r, p.2 r = (s.vel r).map fun x => x / (2 * Real.cos (deg2rad (s.elv : ℝ)))) ∧
    (∀ p ∈ compV_single samples,
      ∃ pn ∈ beamGroup 0 samples, ∃ ps ∈ beamGroup 180 samples,
        ps.1 = pn.1 ∧ p.1 = pn.1 ∧
          ∀ r, p.2 r = (pn.2 r).bind fun a => (ps.2 r).map fun b => -(a - b)) ∧
    (∀ p ∈ compU_single samples,
      ∃ pe ∈ beamGroup 90 samples, ∃ pw ∈ beamGroup 270 samples,
        pw.1 = pe.1 ∧ p.1 = pe.1 ∧
          ∀ r, p.2 r = (pe.2 r).bind fun a => (pw.2 r).map fun b => -(a - b)) := by
  refine ⟨?_, ?_, ?_, ?_⟩
  · intro az s hs haz
    exact beamGroup_mem hs haz
  · intro az p hp
    obtain ⟨s, hs, haz, heq⟩ := mem_beamGroup hp
    exact ⟨s, hs, haz, by rw [heq], fun r => by rw [heq]; rfl⟩
  · intro p hp
    obtain ⟨q, hq, hpt, hpv⟩ := mem_negGroup hp
    obtain ⟨pn, hpn, ps, hps, hts, hqt, hdiff⟩ := mem_alignedDiff hq
    refine ⟨pn, hpn, ps, hps, hts, hpt.trans hqt, fun r => ?_⟩
    rw [hpv r, hdiff r]
    cases pn.2 r with
    | none => rfl
    | some a =>
        cases ps.2 r with
        | none => rfl
        | some b => rfl
  · intro p hp
    obtain ⟨q, hq, hpt, hpv⟩ := mem_negGroup hp
    obtain ⟨pe, hpe, pw, hpw, hts, hqt, hdiff⟩ := mem_alignedDiff hq
    refine ⟨pe, hpe, pw, hpw, hts, hpt.trans hqt, fun r => ?_⟩
    rw [hpv r, hdiff r]
    cases pe.2 r with
    | none => rfl
    | some a =>
        cases pw.2 r with
        | none => rfl
        | some b => rfl

/-- Witness for C6: the grouping, re-indexing and pairing facts at a
concrete two-sample (north/south) scan. -/
theorem C6_single_dbs_characterization_witness :
    (((100 : ℚ), compWindSpeed (⟨0, 45, 100, fun _ : Unit => some 3⟩ : DbsSample Unit))
        ∈ beamGroup 0
          [(⟨0, 45, 100, fun _ : Unit => some 3⟩ : DbsSample Unit), ⟨180, 45, 100, fun _ => some 1⟩]) ∧
    (∀ p ∈ compV_single
        [(⟨0, 45, 100, fun _ : Unit => some 3⟩ : DbsSample Unit), ⟨180, 45, 100, fun _ => some 1⟩],
      ∃ pn ∈ beamGroup 0
          [(⟨0, 45, 100, fun _ : Unit => some 3⟩ : DbsSample Unit), ⟨180, 45, 100, fun _ => some 1⟩],
        ∃ ps ∈ beamGroup 180
            [(⟨0, 45, 100, fun _ : Unit => some 3⟩ : DbsSample Unit), ⟨180, 45, 100, fun _ => some 1⟩],
          ps.1 = pn.1 ∧ p.1 = pn.1 ∧
            ∀ r, p.2 r = (pn.2 r).bind fun a => (ps.2 r).map fun b => -(a - b)) :=
  ⟨(C6_single_dbs_characterization _).1 0 ⟨0, 45, 100, fun _ => some 3⟩ (by simp) rfl,
    (C6_single_dbs_characterization _).2.2.1⟩

namespace SixBeamMethod

lemma inv_mulVec_component_two {elv : ℝ} {azm : Fin 5 → ℝ}
    (h : IsUnit (m_matrix elv azm).det) (S : Fin 6 → ℝ) :
    ((m_matrix elv azm)⁻¹.mulVec S) 2 = S 5 := by
  set M := m_matrix elv azm with hM
  have hrow5 : M 5 = ![0, 0, 1, 0, 0, 0] := by
    rw [hM, m_matrix_vertical_row, m_matrix_line_vertical]
  have hvec : M⁻¹ 2 = Pi.single (5 : Fin 6) (1 : ℝ) := by
    have h1 : Matrix.vecMul (M⁻¹ 2) M = Matrix.vecMul (Pi.single (5 : Fin 6) (1 : ℝ)) M := by
      funext j
      have hL : Matrix.vecMul (M⁻¹ 2) M j = (M⁻¹ * M) 2 j := by
        simp [Matrix.vecMul, Matrix.mul_apply, Matrix.dotProduct]
      have hR : Matrix.vecMul (Pi.single (5 : Fin 6) (1 : ℝ)) M j = M 5 j := by
        simp [Matrix.vecMul, Matrix.dotProduct, Pi.single_apply]
      rw [hL, hR, Matrix.nonsing_inv_mul M h, hrow5]
      fin_cases j <;> rfl
    have h2 := congrArg (fun v => Matrix.vecMul v M⁻¹) h1
    simp only [Matrix.vecMul_vecMul] at h2
    rw [Matrix.mul_nonsing_inv M h, Matrix.vecMul_one, Matrix.vecMul_one] at h2
    exact h2
  rw [Matrix.mulVec, hvec]
  simp [Matrix.dotProduct, Pi.single_apply]

lemma inv_mulVec_eq {M : Matrix (Fin 6) (Fin 6) ℝ} (h : IsUnit M.det) {S x : Fin 6 → ℝ}
    (hx : M.mulVec x = S) : M⁻¹.mulVec S = x := by
  rw [← hx, Matrix.mulVec_mulVec, Matrix.nonsing_inv_mul M h, Matrix.one_mulVec]

lemma listVar_nonneg (l : List ℝ) : 0 ≤ listVar l := by
  unfold listVar
  apply div_nonneg
  · apply List.sum_nonneg
    intro x hx
    rw [List.mem_map] at hx
    obtain ⟨y, _, rfl⟩ := hx
    positivity
  · positivity

lemma get_variance_getD_some {freq : ℕ} {xs : List (Option ℝ)} {i : ℕ} {w : ℝ}
    (h : (get_variance freq xs).getD i none = some w) :
    1 ≤ (windowVals freq xs i).length ∧ w = listVar (windowVals freq xs i) := by
  by_cases hi : i < xs.length
  · rw [get_variance_getD freq xs i hi] at h
    unfold rollingVarCell at h
    split at h
    · next hc => exact ⟨hc.2, (Option.some_inj.mp h).symm⟩
    · simp at h
  · rw [List.getD_eq_default] at h
    · simp at h
    · simp only [get_variance, List.length_map, List.length_range]
      omega

end SixBeamMethod

/-- **C9.** In exact arithmetic, because the vertical-beam row of the
geometry matrix is `(0, 0, 1, 0, 0, 0)`, the retrieved `var_w` field of
`SixBeamMethod` equals the windowed variance of the (negated)
vertical-beam series `rVariance90` at every (time, range) cell where it
is defined, independently of the five slanted-beam variances. -/
theorem C9_var_w_equals_vertical_variance {rng : Type} (d : RestructuredData rng)
    (freq freq90 : ℕ) (i : ℕ) (r : rng) (w : ℝ)
    (hw : var_comp d freq freq90 2 i r = some w) :
    (rVariance90 d freq90 r).getD i none = some w := by
  unfold var_comp sigma at hw
  rw [m_matrix_inv] at hw
  by_cases hdet : IsUnit (m_matrix d.elv d.azm).det
  · rw [if_pos hdet] at hw
    simp only [Option.some_bind] at hw
    by_cases hall : ∀ k, (s_matrix d freq freq90 i r k).isSome
    · rw [dif_pos hall] at hw
      simp only [Option.map_some'] at hw
      have hval := Option.some_inj.mp hw
      rw [inv_mulVec_component_two hdet] at hval
      have h5 : s_matrix d freq freq90 i r 5 = some w := by
        rw [← hval]
        exact (Option.some_get (hall 5)).symm
      unfold s_matrix at h5
      rwa [dif_neg (by decide : ¬ (((5 : Fin 6) : ℕ) < 5))] at h5
    · rw [dif_neg hall] at hw
      simp at hw
  · rw [if_neg hdet] at hw
    simp at hw

/-- **C2 (amended).** For every real-valued input accepted by
`SixBeamMethod`, the retrieved `var_w` component is ≥ 0 at every
(time, range) cell where it is defined; the slanted diagonal components
`var_u`, `var_v` are NOT guaranteed nonnegative
(`C2_counterexample_negative_var_u`). -/
theorem C2_var_w_nonneg {rng : Type} (d : RestructuredData rng) (freq freq90 : ℕ) (i : ℕ)
    (r : rng) (w : ℝ) (hw : var_comp d freq freq90 2 i r = some w) : 0 ≤ w := by
  have h9 := C9_var_w_equals_vertical_variance d freq freq90 i r w hw
  unfold rVariance90 rVariance90_series at h9
  obtain ⟨-, hval⟩ := get_variance_getD_some h9
  rw [hval]
  exact listVar_nonneg _

theorem deg2rad_rad2deg (x : ℝ) : deg2rad (rad2deg x) = x := by
  unfold deg2rad rad2deg
  field_simp

namespace SixBeamMethod

lemma sqrt_sixteen_over_25 : Real.sqrt (1 - (3 / 5 : ℝ) ^ 2) = 4 / 5 := by
  rw [show (1 - (3 / 5 : ℝ) ^ 2) = (4 / 5) ^ 2 from by norm_num]
  exact Real.sqrt_sq (by norm_num)

lemma cos_deg2rad_elv₀ : Real.cos (deg2rad elv₀) = 4 / 5 := by
  rw [show deg2rad elv₀ = Real.arcsin (3 / 5) from deg2rad_rad2deg _, Real.cos_arcsin,
    sqrt_sixteen_over_25]

lemma sin_deg2rad_elv₀ : Real.sin (deg2rad elv₀) = 3 / 5 := by
  rw [show deg2rad elv₀ = Real.arcsin (3 / 5) from deg2rad_rad2deg _]
  exact Real.sin_arcsin (by norm_num) (by norm_num)

lemma cos_deg2rad_azm4 : Real.cos (deg2rad (azm₀ 4)) = 3 / 5 := by
  rw [show deg2rad (azm₀ 4) = Real.arccos (3 / 5) from deg2rad_rad2deg _]
  exact Real.cos_arccos (by norm_num) (by norm_num)

lemma sin_deg2rad_azm4 : Real.sin (deg2rad (azm₀ 4)) = 4 / 5 := by
  rw [show deg2rad (azm₀ 4) = Real.arccos (3 / 5) from deg2rad_rad2deg _, Real.sin_arccos,
    sqrt_sixteen_over_25]

lemma deg2rad_180 : deg2rad 180 = Real.pi := by
  unfold deg2rad; ring

lemma cos_deg2rad_270 : Real.cos (deg2rad 270) = 0 := by
  rw [show deg2rad 270 = Real.pi + Real.pi / 2 from by unfold deg2rad; ring, Real.cos_add]
  simp

lemma sin_deg2rad_270 : Real.sin (deg2rad 270) = -1 := by
  rw [show deg2rad 270 = Real.pi + Real.pi / 2 from by unfold deg2rad; ring, Real.sin_add]
  simp

lemma m_matrix_example_row0 :
    m_matrix_line (deg2rad elv₀) (deg2rad (azm₀ 0)) = ![0, 16/25, 9/25, 0, 0, 24/25] := by
  funext j
  fin_cases j <;>
    simp [m_matrix_line, show azm₀ 0 = 0 from rfl, deg2rad_zero, cos_deg2rad_elv₀,
      sin_deg2rad_elv₀] <;>
    norm_num

lemma m_matrix_example_row1 :
    m_matrix_line (deg2rad elv₀) (deg2rad (azm₀ 1)) = ![16/25, 0, 9/25, 0, 24/25, 0] := by
  funext j
  fin_cases j <;>
    simp [m_matrix_line, show azm₀ 1 = 90 from rfl, deg2rad_90, cos_deg2rad_elv₀,
      sin_deg2rad_elv₀, Real.cos_pi_div_two, Real.sin_pi_div_two] <;>
    norm_num

lemma m_matrix_example_row2 :
    m_matrix_line (deg2rad elv₀) (deg2rad (azm₀ 2)) = ![0, 16/25, 9/25, 0, 0, -(24/25)] := by
  funext j
  fin_cases j <;>
    simp [m_matrix_line, show azm₀ 2 = 180 from rfl, deg2rad_180, cos_deg2rad_elv₀,
      sin_deg2rad_elv₀, Real.cos_pi, Real.sin_pi] <;>
    norm_num

lemma m_matrix_example_row3 :
    m_matrix_line (deg2rad elv₀) (deg2rad (azm₀ 3)) = ![16/25, 0, 9/25, 0, -(24/25), 0] := by
  funext j
  fin_cases j <;>
    simp [m_matrix_line, show azm₀ 3 = 270 from rfl, cos_deg2rad_270, sin_deg2rad_270,
      cos_deg2rad_elv₀, sin_deg2rad_elv₀] <;>
    norm_num

lemma m_matrix_example_row4 :
    m_matrix_line (deg2rad elv₀) (deg2rad (azm₀ 4))
      = ![256/625, 144/625, 9/25, 384/625, 96/125, 72/125] := by
  funext j
  fin_cases j <;>
    simp [m_matrix_line, cos_deg2rad_azm4, sin_deg2rad_azm4, cos_deg2rad_elv₀,
      sin_deg2rad_elv₀] <;>
    norm_num

lemma m_matrix_example : m_matrix elv₀ azm₀ = M₀ := by
  ext i j
  fin_cases i
  · show m_matrix elv₀ azm₀ ((0 : Fin 5).castSucc) j = M₀ ((0 : Fin 5).castSucc) j
    rw [m_matrix_slanted_row, m_matrix_example_row0]
    rfl
  · show m_matrix elv₀ azm₀ ((1 : Fin 5).castSucc) j = M₀ ((1 : Fin 5).castSucc) j
    rw [m_matrix_slanted_row, m_matrix_example_row1]
    rfl
  · show m_matrix elv₀ azm₀ ((2 : Fin 5).castSucc) j = M₀ ((2 : Fin 5).castSucc) j
    rw [m_matrix_slanted_row, m_matrix_example_row2]
    rfl
  · show m_matrix elv₀ azm₀ ((3 : Fin 5).castSucc) j = M₀ ((3 : Fin 5).castSucc) j
    rw [m_matrix_slanted_row, m_matrix_example_row3]
    rfl
  · show m_matrix elv₀ azm₀ ((4 : Fin 5).castSucc) j = M₀ ((4 : Fin 5).castSucc) j
    rw [m_matrix_slanted_row, m_matrix_example_row4]
    rfl
  · show m_matrix elv₀ azm₀ 5 j = M₀ 5 j
    rw [m_matrix_vertical_row, m_matrix_line_vertical]
    rfl

lemma fin6_five : (5 : Fin 6) = (4 : Fin 5).succ := rfl

lemma fin5_four : (4 : Fin 5) = (3 : Fin 4).succ := rfl

lemma fin4_three : (3 : Fin 4) = (2 : Fin 3).succ := rfl

lemma fin3_two : (2 : Fin 3) = (1 : Fin 2).succ := rfl

lemma fin2_one : (1 : Fin 2) = (0 : Fin 1).succ := rfl

lemma M₀_mul_B₀ : M₀ * B₀ = 1 := by
  ext i j
  fin_cases i <;> fin_cases j <;>
    simp [Matrix.mul_apply, Fin.sum_univ_succ, Matrix.cons_val_zero, Matrix.cons_val_succ,
      M₀, B₀, Matrix.one_apply, fin6_five, fin5_four, fin4_three, fin3_two, fin2_one] <;>
    norm_num

lemma m_matrix_example_det : IsUnit (m_matrix elv₀ azm₀).det := by
  rw [m_matrix_example]
  exact Matrix.isUnit_det_of_right_inverse M₀_mul_B₀

lemma exampleData_sl_series (b : Fin 5) :
    (List.range exampleData.times90.length).map (fun i => interpSlanted exampleData i () b)
      = [some 0, some 0, some 0, some 0] := rfl

lemma rV_sl_example (b : Fin 5) : (rVariance exampleData 4 () b).getD 1 none = some 0 := by
  unfold rVariance
  rw [exampleData_sl_series]
  rw [get_variance_getD 4 _ 1 (by norm_num)]
  have hw : windowVals 4 [some (0 : ℝ), some 0, some 0, some 0] 1 = [0, 0, 0] := by
    simp [windowVals, windowIdx, List.range_succ]
  rw [rollingVarCell, hw, if_pos (by norm_num [min_periods])]
  have hv : listVar [(0 : ℝ), 0, 0] = 0 := by norm_num [listVar]
  rw [hv]

lemma rV90_example : (rVariance90 exampleData 4 ()).getD 1 none = some (8/9) := by
  unfold rVariance90 rVariance90_series
  have hser : (List.range exampleData.times90.length).map (fun i => exampleData.val90 i ())
      = [some 1, some (-1), some 1, some (-1)] := rfl
  rw [hser]
  have hneg : negSeries [some (1 : ℝ), some (-1), some 1, some (-1)]
      = [some (-1), some 1, some (-1), some 1] := by
    norm_num [negSeries]
  rw [hneg, get_variance_getD 4 _ 1 (by norm_num)]
  have hw : windowVals 4 [some (-1 : ℝ), some 1, some (-1), some 1] 1 = [-1, 1, -1] := by
    simp [windowVals, windowIdx, List.range_succ]
  rw [rollingVarCell, hw, if_pos (by norm_num [min_periods])]
  have hv : listVar [(-1 : ℝ), 1, -1] = 8 / 9 := by norm_num [listVar]
  rw [hv]

lemma s_matrix_example (k : Fin 6) :
    s_matrix exampleData 4 4 1 () k = if (k : ℕ) < 5 then some 0 else some (8/9) := by
  unfold s_matrix
  by_cases hk : (k : ℕ) < 5
  · rw [dif_pos hk, if_pos hk]
    exact rV_sl_example ⟨k, hk⟩
  · rw [dif_neg hk, if_neg hk]
    exact rV90_example

lemma sigma_example : sigma exampleData 4 4 1 () = some ![-(1/2), -(1/2), 8/9, 0, 0, 0] := by
  unfold sigma
  rw [show exampleData.elv = elv₀ from rfl, show exampleData.azm = azm₀ from rfl,
    m_matrix_inv, if_pos m_matrix_example_det]
  simp only [Option.some_bind]
  have hall : ∀ k, (s_matrix exampleData 4 4 1 () k).isSome := by
    intro k
    rw [s_matrix_example k]
    by_cases hk : (k : ℕ) < 5 <;> simp [hk]
  rw [dif_pos hall]
  have hS : (fun k => (s_matrix exampleData 4 4 1 () k).get (hall k))
      = ![0, 0, 0, 0, 0, 8/9] := by
    funext k
    have hsome : some ((s_matrix exampleData 4 4 1 () k).get (hall k))
        = some (![(0 : ℝ), 0, 0, 0, 0, 8/9] k) := by
      rw [Option.some_get, s_matrix_example k]
      fin_cases k <;> rfl
    exact Option.some_inj.mp hsome
  rw [hS]
  congr 1
  have hx : (m_matrix elv₀ azm₀).mulVec ![-(1/2), -(1/2), 8/9, 0, 0, 0]
      = ![0, 0, 0, 0, 0, 8/9] := by
    rw [m_matrix_example]
    funext k
    fin_cases k <;>
      simp [Matrix.mulVec, Matrix.dotProduct, Fin.sum_univ_succ, Matrix.cons_val_zero,
        Matrix.cons_val_succ, M₀, fin6_five, fin5_four, fin4_three, fin3_two, fin2_one] <;>
      norm_num
  exact inv_mulVec_eq m_matrix_example_det hx

end SixBeamMethod

/-- **C2 counterexample.** A concrete real-valued input accepted by
`SixBeamMethod` (five constant slanted beams, an oscillating vertical
beam) yields `var_u = -1/2 < 0` at a defined (time, range) cell: the
diagonal stress-tensor components are not all nonnegative. -/
theorem C2_counterexample_negative_var_u :
    var_comp exampleData 4 4 0 1 () = some (-(1/2)) ∧ ((-(1/2) : ℝ)) < 0 := by
  constructor
  · unfold var_comp
    rw [sigma_example]
    rfl
  · norm_num

/-- Witness for C2 (amended): the same concrete input has
`var_w = 8/9 ≥ 0`. -/
theorem C2_var_w_nonneg_witness :
    var_comp exampleData 4 4 2 1 () = some (8/9) ∧ (0 : ℝ) ≤ 8/9 := by
  have h : var_comp exampleData 4 4 2 1 () = some (8/9) := by
    unfold var_comp
    rw [sigma_example]
    rfl
  exact ⟨h, C2_var_w_nonneg exampleData 4 4 1 () (8/9) h⟩

/-- Witness for C9: on the concrete input, `var_w` and the vertical
rolling variance both equal `8/9` at the defined cell. -/
theorem C9_var_w_equals_vertical_variance_witness :
    var_comp exampleData 4 4 2 1 () = some (8/9) ∧
    (rVariance90 exampleData 4 ()).getD 1 none = some (8/9) := by
  have h : var_comp exampleData 4 4 2 1 () = some (8/9) := by
    unfold var_comp
    rw [sigma_example]
    rfl
  exact ⟨h, C9_var_w_equals_vertical_variance exampleData 4 4 1 () (8/9) h⟩

namespace SixBeamMethod

lemma eval_trig_poly (a b x0 x1 x3 x4 x5 c s : ℂ) (hcs : c ^ 2 + s ^ 2 = 1) :
    (a ^ 2 * (x1 - x0) / 4 + a ^ 2 * x3 * Complex.I / 2)
      + (a * b * x5 + a * b * x4 * Complex.I) * (c + s * Complex.I)
      + (a ^ 2 * (x0 + x1) / 2) * (c + s * Complex.I) ^ 2
      + (a * b * x5 - a * b * x4 * Complex.I) * (c + s * Complex.I) ^ 3
      + (a ^ 2 * (x1 - x0) / 4 - a ^ 2 * x3 * Complex.I / 2) * (c + s * Complex.I) ^ 4
    = (c + s * Complex.I) ^ 2 *
        (a ^ 2 * s ^ 2 * x0 + a ^ 2 * c ^ 2 * x1 + 2 * a ^ 2 * c * s * x3
          + 2 * a * b * s * x4 + 2 * a * b * c * x5) := by
  have hI : Complex.I ^ 2 = -1 := Complex.I_sq
  linear_combination
    (-(a ^ 2 * (c ^ 2 * Complex.I * x3 / 2 + c ^ 2 * x0 / 4 + 3 * c ^ 2 * x1 / 4
        + c * s * Complex.I * x0 + c * s * Complex.I * x1 + s ^ 2 * Complex.I * x3 / 2
        - 3 * s ^ 2 * x0 / 4 - s ^ 2 * x1 / 4 + Complex.I * x3 / 2 - x0 / 4 + x1 / 4)
      + a * b * (c * Complex.I * x4 + c * x5 + s * Complex.I * x5 - s * x4))) * hcs
    + (-(a ^ 2 * (2 * c ^ 3 * s * x3 + 3 * c ^ 2 * s ^ 2 * Complex.I * x3
        + 3 / 2 * c ^ 2 * s ^ 2 * x0 - 1 / 2 * c ^ 2 * s ^ 2 * x1
        + 2 * c * s ^ 3 * Complex.I ^ 2 * x3 + c * s ^ 3 * Complex.I * x0
        - c * s ^ 3 * Complex.I * x1 + 1 / 2 * s ^ 4 * Complex.I ^ 3 * x3
        + 1 / 4 * s ^ 4 * Complex.I ^ 2 * x0 - 1 / 4 * s ^ 4 * Complex.I ^ 2 * x1
        - 1 / 2 * s ^ 4 * Complex.I * x3 + 3 / 4 * s ^ 4 * x0 + 1 / 4 * s ^ 4 * x1
        - 1 / 2 * s ^ 2 * x0 - 1 / 2 * s ^ 2 * x1)
      + a * b * (3 * c ^ 2 * s * x4 + 3 * c * s ^ 2 * Complex.I * x4 - c * s ^ 2 * x5
        + s ^ 3 * Complex.I ^ 2 * x4 - s ^ 3 * Complex.I * x5 + s ^ 3 * x4 - s * x4))) * hI

lemma exp_mul_I_injective {θ : Fin 5 → ℝ} (h0 : ∀ i, 0 ≤ θ i) (h2 : ∀ i, θ i < 2 * π)
    (hinj : Function.Injective θ) :
    Function.Injective fun i => Complex.exp ((θ i : ℂ) * Complex.I) := by
  intro i j hij
  simp only [Complex.exp_eq_exp_iff_exists_int] at hij
  obtain ⟨n, hn⟩ := hij
  have key : ((θ i - θ j - 2 * π * n : ℝ) : ℂ) * Complex.I = 0 := by
    push_cast
    linear_combination hn
  rcases mul_eq_zero.mp key with h | h
  · have hr : θ i - θ j - 2 * π * n = 0 := by exact_mod_cast h
    have hpi := Real.pi_pos
    have hb1 : -(2 * π) < θ i - θ j := by
      have := h0 i
      have := h2 j
      linarith
    have hb2 : θ i - θ j < 2 * π := by
      have := h0 j
      have := h2 i
      linarith
    have hlt : (n : ℝ) < 1 := by nlinarith
    have hgt : (-1 : ℝ) < (n : ℝ) := by nlinarith
    have hlt' : n < 1 := by exact_mod_cast hlt
    have hgt' : (-1 : ℤ) < n := by exact_mod_cast hgt
    have hn0 : n = 0 := by omega
    apply hinj
    rw [hn0] at hr
    push_cast at hr
    linarith
  · exact absurd h Complex.I_ne_zero

lemma fs1 : Fin.succ (0 : Fin 5) = (1 : Fin 6) := rfl

lemma fs2 : (Fin.succ (0 : Fin 4)).succ = (2 : Fin 6) := rfl

lemma fs3 : ((Fin.succ (0 : Fin 3)).succ).succ = (3 : Fin 6) := rfl

lemma fs4 : (((Fin.succ (0 : Fin 2)).succ).succ).succ = (4 : Fin 6) := rfl

lemma fs5 : ((((Fin.succ (0 : Fin 1)).succ).succ).succ).succ = (5 : Fin 6) := rfl

lemma m_matrix_det_ne_zero (elv : ℝ) (azm : Fin 5 → ℝ) (h1 : 0 < elv) (h2 : elv < 90)
    (h3 : ∀ i, 0 ≤ azm i ∧ azm i < 360) (h4 : Function.Injective azm) :
    (m_matrix elv azm).det ≠ 0 := by
  intro hdet0
  obtain ⟨v, hv0, hMv⟩ := Matrix.exists_mulVec_eq_zero_iff.mpr hdet0
  have hpi := Real.pi_pos
  set a := Real.cos (deg2rad elv) with ha
  set b := Real.sin (deg2rad elv) with hb
  have ht0 : 0 < deg2rad elv := by
    unfold deg2rad
    positivity
  have ht1 : deg2rad elv < π / 2 := by
    unfold deg2rad
    nlinarith
  have hA : 0 < a := Real.cos_pos_of_mem_Ioo ⟨by linarith, ht1⟩
  have hB : 0 < b := Real.sin_pos_of_pos_of_lt_pi ht0 (by linarith)
  set θ : Fin 5 → ℝ := fun i => deg2rad (azm i) with hθ
  have hθ0 : ∀ i, 0 ≤ θ i := by
    intro i
    have := (h3 i).1
    simp only [hθ]
    unfold deg2rad
    positivity
  have hθ2 : ∀ i, θ i < 2 * π := by
    intro i
    have := (h3 i).2
    simp only [hθ]
    unfold deg2rad
    nlinarith
  have hθinj : Function.Injective θ := by
    have hmono : StrictMono deg2rad := by
      intro x y hxy
      unfold deg2rad
      have hpp : (0 : ℝ) < π / 180 := by positivity
      calc x * π / 180 = x * (π / 180) := by ring
        _ < y * (π / 180) := mul_lt_mul_of_pos_right hxy hpp
        _ = y * π / 180 := by ring
    exact fun i j hij => h4 (hmono.injective hij)
  -- the vertical row gives v 2 = 0
  have h2v : v 2 = 0 := by
    have hrow := congrFun hMv 5
    simp only [Matrix.mulVec, Matrix.dotProduct, m_matrix_vertical_row,
      m_matrix_line_vertical, Pi.zero_apply] at hrow
    simp only [Fin.sum_univ_succ, Fin.sum_univ_zero, Matrix.cons_val_zero,
      Matrix.cons_val_succ, fs1, fs2, fs3, fs4, fs5] at hrow
    linarith [hrow]
  -- the slanted rows give the trigonometric equations
  have hrowi : ∀ i : Fin 5,
      a ^ 2 * Real.sin (θ i) ^ 2 * v 0 + a ^ 2 * Real.cos (θ i) ^ 2 * v 1
        + 2 * a ^ 2 * Real.cos (θ i) * Real.sin (θ i) * v 3
        + 2 * a * b * Real.sin (θ i) * v 4 + 2 * a * b * Real.cos (θ i) * v 5 = 0 := by
    intro i
    have hθap : ∀ k, deg2rad (azm k) = θ k := fun k => rfl
    have hrow := congrFun hMv i.castSucc
    simp only [Matrix.mulVec, Matrix.dotProduct, m_matrix_slanted_row, m_matrix_line,
      Pi.zero_apply] at hrow
    simp only [Fin.sum_univ_succ, Fin.sum_univ_zero, Matrix.cons_val_zero,
      Matrix.cons_val_succ, fs1, fs2, fs3, fs4, fs5] at hrow
    simp only [← ha, ← hb, hθap] at hrow
    rw [h2v] at hrow
    linarith [hrow]
  -- package as a complex polynomial with the z = exp(θ I) as roots
  set p : Polynomial ℂ :=
    Polynomial.C ((a : ℂ) ^ 2 * ((v 1 : ℂ) - (v 0 : ℂ)) / 4
        + (a : ℂ) ^ 2 * (v 3 : ℂ) * Complex.I / 2)
      + Polynomial.C ((a : ℂ) * (b : ℂ) * (v 5 : ℂ)
        + (a : ℂ) * (b : ℂ) * (v 4 : ℂ) * Complex.I) * Polynomial.X
      + Polynomial.C ((a : ℂ) ^ 2 * ((v 0 : ℂ) + (v 1 : ℂ)) / 2) * Polynomial.X ^ 2
      + Polynomial.C ((a : ℂ) * (b : ℂ) * (v 5 : ℂ)
        - (a : ℂ) * (b : ℂ) * (v 4 : ℂ) * Complex.I) * Polynomial.X ^ 3
      + Polynomial.C ((a : ℂ) ^ 2 * ((v 1 : ℂ) - (v 0 : ℂ)) / 4
        - (a : ℂ) ^ 2 * (v 3 : ℂ) * Complex.I / 2) * Polynomial.X ^ 4 with hp
  have hdeg : p.natDegree ≤ 4 := by
    rw [hp]
    compute_degree
  have heval : ∀ i : Fin 5, p.eval (Complex.exp ((θ i : ℂ) * Complex.I)) = 0 := by
    intro i
    have hz : Complex.exp ((θ i : ℂ) * Complex.I)
        = ((Real.cos (θ i) : ℝ) : ℂ) + ((Real.sin (θ i) : ℝ) : ℂ) * Complex.I := by
      rw [Complex.exp_mul_I, ← Complex.ofReal_cos, ← Complex.ofReal_sin]
    have hcs : ((Real.cos (θ i) : ℝ) : ℂ) ^ 2 + ((Real.sin (θ i) : ℝ) : ℂ) ^ 2 = 1 := by
      have := Real.cos_sq_add_sin_sq (θ i)
      push_cast
      exact_mod_cast this
    have hq : (a : ℂ) ^ 2 * ((Real.sin (θ i) : ℝ) : ℂ) ^ 2 * (v 0 : ℂ)
        + (a : ℂ) ^ 2 * ((Real.cos (θ i) : ℝ) : ℂ) ^ 2 * (v 1 : ℂ)
        + 2 * (a : ℂ) ^ 2 * ((Real.cos (θ i) : ℝ) : ℂ) * ((Real.sin (θ i) : ℝ) : ℂ) * (v 3 : ℂ)
        + 2 * (a : ℂ) * (b : ℂ) * ((Real.sin (θ i) : ℝ) : ℂ) * (v 4 : ℂ)
        + 2 * (a : ℂ) * (b : ℂ) * ((Real.cos (θ i) : ℝ) : ℂ) * (v 5 : ℂ) = 0 := by
      exact_mod_cast congrArg (fun y : ℝ => (y : ℂ)) (hrowi i)
    rw [hz, hp]
    simp only [Polynomial.eval_add, Polynomial.eval_mul, Polynomial.eval_pow,
      Polynomial.eval_C, Polynomial.eval_X]
    rw [eval_trig_poly _ _ _ _ _ _ _ _ _ hcs, hq, mul_zero]
  have hpzero : p = 0 := by
    apply Polynomial.eq_zero_of_natDegree_lt_card_of_eval_eq_zero p
      (exp_mul_I_injective hθ0 hθ2 hθinj) heval
    rw [Fintype.card_fin]
    omega
  -- extract the coefficients
  have hc0 : (a : ℂ) ^ 2 * ((v 1 : ℂ) - (v 0 : ℂ)) / 4
      + (a : ℂ) ^ 2 * (v 3 : ℂ) * Complex.I / 2 = 0 := by
    have h := congrArg (fun q : Polynomial ℂ => q.coeff 0) hpzero
    simp only [hp, Polynomial.coeff_add, Polynomial.coeff_C_mul, Polynomial.coeff_X_pow,
      Polynomial.coeff_C, Polynomial.coeff_X, Polynomial.coeff_zero] at h
    norm_num at h
    linear_combination h
  have hc1 : (a : ℂ) * (b : ℂ) * (v 5 : ℂ) + (a : ℂ) * (b : ℂ) * (v 4 : ℂ) * Complex.I = 0 := by
    have h := congrArg (fun q : Polynomial ℂ => q.coeff 1) hpzero
    simp only [hp, Polynomial.coeff_add, Polynomial.coeff_C_mul, Polynomial.coeff_X_pow,
      Polynomial.coeff_C, Polynomial.coeff_X, Polynomial.coeff_zero] at h
    norm_num at h
    linear_combination h
  have hc2 : v 0 + v 1 = 0 := by
    have h := congrArg (fun q : Polynomial ℂ => q.coeff 2) hpzero
    simp only [hp, Polynomial.coeff_add, Polynomial.coeff_C_mul, Polynomial.coeff_X_pow,
      Polynomial.coeff_C, Polynomial.coeff_X, Polynomial.coeff_zero] at h
    norm_num at h
    rcases h with h | h
    · linarith
    · exact_mod_cast h
  have hc3 : (a : ℂ) * (b : ℂ) * (v 5 : ℂ) - (a : ℂ) * (b : ℂ) * (v 4 : ℂ) * Complex.I = 0 := by
    have h := congrArg (fun q : Polynomial ℂ => q.coeff 3) hpzero
    simp only [hp, Polynomial.coeff_add, Polynomial.coeff_C_mul, Polynomial.coeff_X_pow,
      Polynomial.coeff_C, Polynomial.coeff_X, Polynomial.coeff_zero] at h
    norm_num at h
    linear_combination h
  have hc4 : (a : ℂ) ^ 2 * ((v 1 : ℂ) - (v 0 : ℂ)) / 4
      - (a : ℂ) ^ 2 * (v 3 : ℂ) * Complex.I / 2 = 0 := by
    have h := congrArg (fun q : Polynomial ℂ => q.coeff 4) hpzero
    simp only [hp, Polynomial.coeff_add, Polynomial.coeff_C_mul, Polynomial.coeff_X_pow,
      Polynomial.coeff_C, Polynomial.coeff_X, Polynomial.coeff_zero] at h
    norm_num at h
    linear_combination h
  -- deduce the real components
  have haC : ((a : ℝ) : ℂ) ≠ 0 := by
    simp only [ne_eq, Complex.ofReal_eq_zero]
    linarith
  have hbC : ((b : ℝ) : ℂ) ≠ 0 := by
    simp only [ne_eq, Complex.ofReal_eq_zero]
    linarith
  have h10 : ((v 1 - v 0 : ℝ) : ℂ) = 0 := by
    have hsum : (a : ℂ) ^ 2 * ((v 1 : ℂ) - (v 0 : ℂ)) / 2 = 0 := by
      linear_combination hc0 + hc4
    have := mul_eq_zero.mp (by linear_combination hsum : ((a : ℂ) ^ 2) * (((v 1 : ℂ) - (v 0 : ℂ)) / 2) = 0)
    rcases this with h | h
    · exact absurd h (pow_ne_zero 2 haC)
    · push_cast
      linear_combination 2 * h
  have h3z : ((v 3 : ℝ) : ℂ) = 0 := by
    have hdiff : (a : ℂ) ^ 2 * (v 3 : ℂ) * Complex.I = 0 := by
      linear_combination hc0 - hc4
    rcases mul_eq_zero.mp hdiff with h | h
    · rcases mul_eq_zero.mp h with h' | h'
      · exact absurd h' (pow_ne_zero 2 haC)
      · exact h'
    · exact absurd h Complex.I_ne_zero
  have h5z : ((v 5 : ℝ) : ℂ) = 0 := by
    have hsum : (a : ℂ) * (b : ℂ) * (v 5 : ℂ) = 0 := by
      linear_combination (hc1 + hc3) / 2
    rcases mul_eq_zero.mp hsum with h | h
    · rcases mul_eq_zero.mp h with h' | h'
      · exact absurd h' haC
      · exact absurd h' hbC
    · exact h
  have h4z : ((v 4 : ℝ) : ℂ) = 0 := by
    have hdiff : (a : ℂ) * (b : ℂ) * (v 4 : ℂ) * Complex.I = 0 := by
      linear_combination (hc1 - hc3) / 2
    rcases mul_eq_zero.mp hdiff with h | h
    · rcases mul_eq_zero.mp h with h' | h'
      · rcases mul_eq_zero.mp h' with h'' | h''
        · exact absurd h'' haC
        · exact absurd h'' hbC
      · exact h'
    · exact absurd h Complex.I_ne_zero
  have hv00 : v 0 = 0 := by
    have e1 : v 1 - v 0 = 0 := by exact_mod_cast h10
    linarith [hc2]
  have hv10 : v 1 = 0 := by
    have e1 : v 1 - v 0 = 0 := by exact_mod_cast h10
    linarith [hv00]
  have hv30 : v 3 = 0 := by exact_mod_cast h3z
  have hv40 : v 4 = 0 := by exact_mod_cast h4z
  have hv50 : v 5 = 0 := by exact_mod_cast h5z
  apply hv0
  funext k
  fin_cases k
  · exact hv00
  · exact hv10
  · exact h2v
  · exact hv30
  · exact hv40
  · exact hv50


lemma m_matrix_det_zero_of_repeat (elv : ℝ) (azm : Fin 5 → ℝ) {i j : Fin 5} (hij : i ≠ j)
    (heq : azm i = azm j) : (m_matrix elv azm).det = 0 := by
  apply Matrix.det_zero_of_row_eq
    (show i.castSucc ≠ j.castSucc from fun h => hij (Fin.castSucc_injective _ h))
  rw [m_matrix_slanted_row, m_matrix_slanted_row, heq]

lemma exists_repeat_of_two_values (azm : Fin 5 → ℝ) (θc : ℝ)
    (h : ∀ i, azm i = θc ∨ azm i = θc + 180) : ∃ i j, i ≠ j ∧ azm i = azm j := by
  obtain ⟨i, j, hne, hfe⟩ := Fintype.exists_ne_map_eq_of_card_lt
    (fun i : Fin 5 => decide (azm i = θc)) (by simp)
  refine ⟨i, j, hne, ?_⟩
  rcases h i with hi | hi <;> rcases h j with hj | hj
  · rw [hi, hj]
  · exfalso
    have h2 : ¬ (azm j = θc) := by
      rw [hj]
      intro hx
      linarith
    simp [hi, h2] at hfe
  · exfalso
    have h2 : ¬ (azm i = θc) := by
      rw [hi]
      intro hx
      linarith
    simp [hj, h2] at hfe
  · rw [hi, hj]

end SixBeamMethod

/-- **C5.** For five pairwise distinct slanted azimuths in `[0°, 360°)` at
a fixed elevation strictly between 0° and 90°, the 6×6 geometry matrix is
non-singular and the inversion step (`np.linalg.inv`) succeeds; if two of
the five slanted azimuths coincide (in particular if all five are
identical), or all five take only the two antipodal values `θ` and
`θ + 180°`, the matrix is singular and the inversion fails, so the
retrieval aborts and never yields an output product. -/
theorem C5_geometry_matrix_invertibility :
    (∀ (elv : ℝ) (azm : Fin 5 → ℝ), 0 < elv → elv < 90 →
      (∀ i, 0 ≤ azm i ∧ azm i < 360) → Function.Injective azm →
      (m_matrix_inv elv azm).isSome) ∧
    (∀ (elv : ℝ) (azm : Fin 5 → ℝ), (∃ i j, i ≠ j ∧ azm i = azm j) →
      m_matrix_inv elv azm = none) ∧
    (∀ (elv : ℝ) (azm : Fin 5 → ℝ) (θc : ℝ), (∀ i, azm i = θc ∨ azm i = θc + 180) →
      m_matrix_inv elv azm = none) := by
  have hsing : ∀ (elv : ℝ) (azm : Fin 5 → ℝ), (∃ i j, i ≠ j ∧ azm i = azm j) →
      m_matrix_inv elv azm = none := by
    intro elv azm ⟨i, j, hij, heq⟩
    rw [m_matrix_inv, if_neg]
    intro hunit
    rw [m_matrix_det_zero_of_repeat elv azm hij heq] at hunit
    exact not_isUnit_zero hunit
  refine ⟨?_, hsing, ?_⟩
  · intro elv azm h1 h2 h3 h4
    rw [m_matrix_inv,
      if_pos (isUnit_iff_ne_zero.mpr (m_matrix_det_ne_zero elv azm h1 h2 h3 h4))]
    rfl
  · intro elv azm θc h
    exact hsing elv azm (exists_repeat_of_two_values azm θc h)

namespace SixBeamMethod

lemma fin5_mk_two (h : 2 < 5) : (⟨2, h⟩ : Fin 5) = 2 := rfl

lemma fin5_mk_three (h : 3 < 5) : (⟨3, h⟩ : Fin 5) = 3 := rfl

lemma fin5_mk_four (h : 4 < 5) : (⟨4, h⟩ : Fin 5) = 4 := rfl

lemma rad2deg_arccos_pos : (0 : ℝ) < rad2deg (Real.arccos (3 / 5)) := by
  have h := Real.arccos_pos.mpr (show (3 / 5 : ℝ) < 1 by norm_num)
  unfold rad2deg
  positivity

lemma rad2deg_arccos_lt_90 : rad2deg (Real.arccos (3 / 5)) < 90 := by
  have h := Real.arccos_lt_pi_div_two.mpr (show (0 : ℝ) < 3 / 5 by norm_num)
  have hpi := Real.pi_pos
  unfold rad2deg
  rw [div_lt_iff hpi]
  nlinarith

lemma azm₀_injective : Function.Injective azm₀ := by
  have h0 := rad2deg_arccos_pos
  have h90 := rad2deg_arccos_lt_90
  intro i j hij
  fin_cases i <;> fin_cases j <;>
    first
      | rfl
      | (exfalso
         simp only [azm₀, fin5_mk_two, fin5_mk_three, fin5_mk_four, Matrix.cons_val_zero,
           Matrix.cons_val_one, Matrix.head_cons, Matrix.cons_val_two, Matrix.cons_val_three,
           Matrix.cons_val_four, Matrix.cons_val_succ, Matrix.head_cons, Matrix.tail_cons,
           Fin.mk_zero, Fin.mk_one] at hij
         linarith)

lemma elv₀_pos : 0 < elv₀ := by
  have h := Real.arcsin_pos.mpr (show (0 : ℝ) < 3 / 5 by norm_num)
  unfold elv₀ rad2deg
  positivity

lemma elv₀_lt_90 : elv₀ < 90 := by
  have h := Real.arcsin_lt_pi_div_two.mpr (show (3 / 5 : ℝ) < 1 by norm_num)
  have hpi := Real.pi_pos
  unfold elv₀ rad2deg
  rw [div_lt_iff hpi]
  nlinarith

lemma azm₀_bounds : ∀ i, 0 ≤ azm₀ i ∧ azm₀ i < 360 := by
  have h0 := rad2deg_arccos_pos
  have h90 := rad2deg_arccos_lt_90
  intro i
  fin_cases i <;>
    (constructor <;>
      (simp only [azm₀, fin5_mk_two, fin5_mk_three, fin5_mk_four, Matrix.cons_val_zero,
        Matrix.cons_val_one, Matrix.head_cons, Matrix.cons_val_two, Matrix.cons_val_three,
        Matrix.cons_val_four, Matrix.cons_val_succ, Matrix.tail_cons, Fin.mk_zero, Fin.mk_one]
       linarith))

end SixBeamMethod

/-- Witness for C5: the concrete distinct geometry `elv₀`/`azm₀` is
invertible; five identical azimuths (all `10°`) and five antipodal
azimuths (`0°/180°` only) make the inversion fail. -/
theorem C5_geometry_matrix_invertibility_witness :
    (m_matrix_inv elv₀ azm₀).isSome ∧
    m_matrix_inv 45 (fun _ => 10) = none ∧
    m_matrix_inv 45 ![0, 180, 0, 180, 0] = none := by
  refine ⟨?_, ?_, ?_⟩
  · exact C5_geometry_matrix_invertibility.1 elv₀ azm₀ elv₀_pos elv₀_lt_90 azm₀_bounds
      azm₀_injective
  · exact C5_geometry_matrix_invertibility.2.1 45 (fun _ => 10) ⟨0, 1, by decide, rfl⟩
  · apply C5_geometry_matrix_invertibility.2.2 45 ![0, 180, 0, 180, 0] 0
    intro i
    fin_cases i <;>
      simp [fin5_mk_two, fin5_mk_three, fin5_mk_four, Matrix.cons_val_zero, Matrix.cons_val_one,
        Matrix.head_cons, Matrix.cons_val_two, Matrix.cons_val_three, Matrix.cons_val_four,
        Matrix.cons_val_succ, Matrix.tail_cons]
